import Mathlib

/-!
Verification of the TimeSync scheduling core (src/app.js) against its
natural-language specification.

Modelling conventions, used throughout:

* JavaScript numbers that can be `NaN` are modelled by `JSNum` (an integer or
  NaN); every comparison against NaN is false, and arithmetic propagates NaN,
  exactly as in JS.  All numeric values reaching these code paths are integers
  (minute counts, slot counts), so no non-integral finite value is needed.
* The strings handled character-by-character in the source (`split(':')`,
  cache keys built by string concatenation) are modelled as `List Char`.
* `Intl.DateTimeFormat`/`toLocaleString` lookups into the platform timezone
  database are modelled by an abstract environment `Env` of pure functions; a
  lookup returning `none` models a thrown `RangeError` (unknown timezone),
  which the source catches.
* A `Date` value is identified by its `toDateString()` rendering, which is the
  only part of it the cache key uses; the UTC year/month/day extraction and
  `Date.UTC` instant construction are absorbed into `Env`, which receives the
  day value and the slot index.
* The floating-point score arithmetic (`Math.round`, `Math.ceil`, `* 0.5`,
  `* 0.8`) is modelled over `ℚ`.  All products appearing here are exact in
  binary floating point or round to results whose floor/ceil agree with the
  rational value, so the `ℚ` model agrees with the JS computation on the
  integer inputs that occur.
-/

set_option maxRecDepth 40000

namespace TimeSync

/-- A JavaScript number as it occurs in this code: an integer or `NaN`. -/
inductive JSNum where
  | nan : JSNum
  | int : Int → JSNum
deriving DecidableEq, Repr

/-- JS `<=`: any comparison involving NaN is false. -/
def jsLe : JSNum → JSNum → Bool
  | .int a, .int b => a ≤ b
  | _, _ => false

/-- JS `<`: any comparison involving NaN is false. -/
def jsLt : JSNum → JSNum → Bool
  | .int a, .int b => a < b
  | _, _ => false

/-- JS `+` on numbers: NaN propagates. -/
def jsAdd : JSNum → JSNum → JSNum
  | .int a, .int b => .int (a + b)
  | _, _ => .nan

/-- JS `*` by an integer constant: NaN propagates. -/
def jsMulInt : JSNum → Int → JSNum
  | .int a, k => .int (a * k)
  | .nan, _ => .nan

/-- `String.prototype.split` with a one-character separator, on the
character-list model of strings.  `"".split(':')` is `[""]`. -/
def splitCh (c : Char) : List Char → List (List Char)
  | [] => [[]]
  | x :: xs =>
    if x = c then [] :: splitCh c xs
    else
      match splitCh c xs with
      | [] => [[x]]
      | y :: ys => (x :: y) :: ys

/-- Decimal value of a digit string, as accumulated left to right. -/
def digitsVal (l : List Char) : Nat :=
  l.foldl (fun acc c => acc * 10 + (c.toNat - '0'.toNat)) 0

/-- JS `Number(s)`, modelled on the component strings `parseTime` produces:
the empty string is `0`, a nonempty all-digit string is its decimal value,
and anything else is `NaN`. -/
def jsNumber (l : List Char) : JSNum :=
  if l.isEmpty then .int 0
  else if l.all (·.isDigit) then .int (digitsVal l)
  else .nan

/-- `parseTime` from src/app.js: split on `':'`, convert the first two parts
with `Number`, return `h * 60 + m`.  A missing second part is `undefined`,
which becomes NaN in the arithmetic.  There is no validation. -/
def parseTime (timeStr : List Char) : JSNum :=
  let parts := (splitCh ':' timeStr).map jsNumber
  let h := parts.headD .nan
  let m := (parts.get? 1).getD .nan
  jsAdd (jsMulInt h 60) m

/-- `isInRange` from src/app.js: window membership with wraparound. -/
def isInRange (minutes start stop : JSNum) : Bool :=
  if jsLe start stop then jsLe start minutes && jsLt minutes stop
  else jsLe start minutes || jsLt minutes stop

/-- The local-time parser as the specification words it (claim-side
definition for the refinement claim C6): exactly two colon-separated integer
components, hours in [0,23], minutes in [0,59], otherwise a failure. -/
def parseLocalTimeSpec (s : List Char) : Option Nat :=
  match splitCh ':' s with
  | [hh, mm] =>
    if hh ≠ [] ∧ mm ≠ [] ∧ hh.all (·.isDigit) ∧ mm.all (·.isDigit) ∧
        digitsVal hh ≤ 23 ∧ digitsVal mm ≤ 59 then
      some (digitsVal hh * 60 + digitsVal mm)
    else none
  | _ => none

/-- A participant record.  The availability-window fields are named `start`
and `end` in the source; `end` is a Lean keyword, so it is `stop` here.
`priority` is `none` when the field is absent (`undefined`). -/
structure Participant where
  id : String
  name : String
  timezone : String
  start : List Char
  stop : List Char
  priority : Option String
  color : String
deriving DecidableEq, Repr

/-- A `Date` value, identified by its `toDateString()` rendering — the only
part of it the cache key uses; its projection into local clocks is supplied
by `Env`. -/
structure JSDate where
  str : List Char
deriving DecidableEq, Repr

/-- The platform environment: `dayAt d` is `new Date()` advanced by `d`
days; `localClock tz day i` is the `Intl.DateTimeFormat(..., {timeZone: tz})`
local (hour, minute) at the UTC instant `day 00:00 + i*30min`; `formatLocal
tz day startMinutes hour12` is the `toLocaleString` rendering at a window
start.  `none` models a thrown error, which the source catches. -/
structure Env where
  dayAt : Nat → JSDate
  localClock : String → JSDate → Nat → Option (Nat × Nat)
  formatLocal : String → JSDate → Nat → Bool → Option String

/-- An entry of a slot's `participants` array. -/
structure SlotEntry where
  name : String
  color : String
  isConflict : Bool
deriving DecidableEq, Repr

/-- One half-hour slot of the availability grid. -/
structure Slot where
  count : Nat
  participants : List SlotEntry
  hasConflict : Bool
deriving DecidableEq, Repr

/-- The 48 fresh slots the grid computation starts from. -/
def initSlots : List Slot := List.replicate 48 ⟨0, [], false⟩

/-- One iteration of the inner loop of `calculateSlotAvailability`: the
effect of participant `p` on slot `i` of day `day`. -/
def slotStep (env : Env) (excludeLunch : Bool) (day : JSDate)
    (p : Participant) (i : Nat) (s : Slot) : Slot :=
  match env.localClock p.timezone day i with
  | none => s
  | some (localHour, localMin) =>
    let localMinutes : Int := localHour * 60 + localMin
    let startMin := parseTime p.start
    let endMin := parseTime p.stop
    if excludeLunch && (decide (720 ≤ localMinutes) && decide (localMinutes < 780)) then
      s
    else
      let isConflict := decide (localHour < 7) || decide (22 ≤ localHour)
      if isInRange (.int localMinutes) startMin endMin then
        { count := s.count + 1
          participants := s.participants ++ [⟨p.name, p.color, isConflict⟩]
          hasConflict := s.hasConflict || isConflict }
      else s

/-- Map an index-aware function over a list, indices starting at `n`. -/
def mapIdxFrom (f : Nat → Slot → Slot) : Nat → List Slot → List Slot
  | _, [] => []
  | n, s :: rest => f n s :: mapIdxFrom f (n + 1) rest

/-- The grid computation of `calculateSlotAvailability` (the part below the
cache check): 48 empty slots, then each participant in order marks every
slot they are available in. -/
def buildSlots (env : Env) (excludeLunch : Bool) (day : JSDate)
    (ps : List Participant) : List Slot :=
  ps.foldl (fun slots p => mapIdxFrom (slotStep env excludeLunch day p) 0 slots)
    initSlots

/-- `JSON.stringify` of the participant-id array (quoting without escape
sequences, which do not occur in generated ids). -/
def jsonStringifyIds (ids : List String) : List Char :=
  ('[' :: List.intercalate [','] (ids.map fun s => '"' :: (s.toList ++ ['"']))) ++ [']']

/-- The cache key of `calculateSlotAvailability`:
`` `slots-${baseDate.toDateString()}-${JSON.stringify(ids)}` ``. -/
def cacheKey (day : JSDate) (ps : List Participant) : List Char :=
  ("slots-".toList ++ day.str) ++ ("-".toList ++ jsonStringifyIds (ps.map (·.id)))

/-- The mutable state the scheduling core reads: the slot cache. -/
structure SchedState where
  cache : List (List Char × List Slot)
deriving Repr

/-- `calculateSlotAvailability` from src/app.js: return the grid stored
under the key built from the day string and the ordered participant-id
tuple, computing and storing it on a miss. -/
def calculateSlotAvailability (env : Env) (excludeLunch : Bool)
    (ps : List Participant) (st : SchedState) (baseDate : JSDate) :
    List Slot × SchedState :=
  let key := cacheKey baseDate ps
  match st.cache.lookup key with
  | some slots => (slots, st)
  | none =>
    let slots := buildSlots env excludeLunch baseDate ps
    (slots, ⟨(key, slots) :: st.cache⟩)

/-- A concrete environment for witnesses and counterexamples: every timezone
reads as UTC and local-time formatting always succeeds. -/
def utcEnv : Env where
  dayAt d := ⟨'D' :: (toString d).toList⟩
  localClock _ _ i := some ((i * 30) / 60, (i * 30) % 60)
  formatLocal _ _ _ _ := some "00:00"

def dayMon : JSDate := ⟨"Mon Oct 12 2026".toList⟩

def dayTue : JSDate := ⟨"Tue Oct 13 2026".toList⟩

/-- Witness data: a required participant available 00:00–00:30. -/
def pAlice : Participant :=
  ⟨"id-a", "Alice", "UTC", "00:00".toList, "00:30".toList, some "required", "#f00"⟩

/-- `pAlice` after an edit that keeps the id but moves the window. -/
def pAliceEdit : Participant :=
  ⟨"id-a", "Alice", "UTC", "02:00".toList, "03:00".toList, some "required", "#f00"⟩

/-- An optional participant available 00:00–01:00. -/
def pBob : Participant :=
  ⟨"id-b", "Bob", "UTC", "00:00".toList, "01:00".toList, some "optional", "#0f0"⟩

/-- A participant with no `priority` field, available all day. -/
def pCarol : Participant :=
  ⟨"id-c", "Carol", "UTC", "00:00".toList, "23:59".toList, none, "#00f"⟩

/-- Every grid the cache stores under a key for participant list `ps` is the
grid `buildSlots` computes for that key's day. -/
def GoodCache (env : Env) (excl : Bool) (ps : List Participant)
    (st : SchedState) : Prop :=
  ∀ day v, st.cache.lookup (cacheKey day ps) = some v →
    v = buildSlots env excl day ps

/-- The structural slot invariant: `count` matches the recorded entries,
`hasConflict` reflects some entry's conflict flag, and at most `k`
participants have been recorded. -/
def SlotInv (k : Nat) (s : Slot) : Prop :=
  s.count = s.participants.length ∧
  (s.hasConflict = true ↔ ∃ e ∈ s.participants, e.isConflict = true) ∧
  s.count ≤ k

/-- The first slot of a concretely computed grid, for the C10 witness. -/
def slotSample : Slot :=
  (calculateSlotAvailability utcEnv false [pAlice] ⟨[]⟩ dayMon).1.headD ⟨0, [], false⟩

/-- The settings bundle the ranker reads from the application state.
`hour12` is `state.timeFormat === '12h'`. -/
structure Settings where
  duration : Nat
  days : Nat
  maxSuggestions : Nat
  excludeLunch : Bool
  hour12 : Bool
deriving DecidableEq, Repr

/-- `Math.ceil(state.duration / 30)`. -/
def slotsNeededOf (duration : Nat) : Nat := (duration + 29) / 30

/-- One entry of a suggestion's `localTimes` array. -/
structure LocalTime where
  name : String
  time : String
  available : Bool
  color : String
  priority : String
deriving DecidableEq, Repr

/-- A ranked suggestion.  `start` is the UTC instant `Date.UTC(y, m, d, 0,
i*30)`, identified by the day value and the minute of day. -/
structure Suggestion where
  start : JSDate × Nat
  score : Nat
  available : List String
  localTimes : List LocalTime
  day : Nat
deriving DecidableEq, Repr

/-- `slots[n]` (always in bounds where used: the grid has 48 slots). -/
def slotAt (slots : List Slot) (n : Nat) : Slot :=
  (slots.get? n).getD ⟨0, [], false⟩

/-- JS `Set.prototype.add` on a name set kept in insertion order. -/
def addName (s : List String) (x : String) : List String :=
  if x ∈ s then s else s ++ [x]

/-- The `availableSet` of the ranker: the union, in insertion order, of the
participant-name lists of the `k` slots starting at index `i`. -/
def windowNames (slots : List Slot) (i k : Nat) : List String :=
  (List.range k).foldl
    (fun acc j =>
      (slotAt slots (i + j)).participants.foldl (fun a e => addName a e.name) acc)
    []

/-- The `score += slots[i + j].count` loop. -/
def windowCountSum (slots : List Slot) (i k : Nat) : Nat :=
  (List.range k).foldl (fun acc j => acc + (slotAt slots (i + j)).count) 0

/-- The `requiredScore += 2` loop: only a priority that is exactly the
string `'required'` counts. -/
def requiredScore (ps : List Participant) (names : List String) : Nat :=
  ps.foldl
    (fun acc p => if p.priority = some "required" ∧ p.name ∈ names then acc + 2 else acc)
    0

/-- JS `p.priority || 'required'` (an absent or empty priority displays as
`'required'`). -/
def priorityOrRequired (p : Participant) : String :=
  match p.priority with
  | some s => if s = "" then "required" else s
  | none => "required"

/-- The `localTimes` array of one candidate; a formatting failure yields
the `'Error'` entry with `available: false`. -/
def mkLocalTimes (env : Env) (hour12 : Bool) (ps : List Participant)
    (day : JSDate) (startMinutes : Nat) (names : List String) : List LocalTime :=
  ps.map fun p =>
    match env.formatLocal p.timezone day startMinutes hour12 with
    | some t => ⟨p.name, t, decide (p.name ∈ names), p.color, priorityOrRequired p⟩
    | none => ⟨p.name, "Error", false, p.color, priorityOrRequired p⟩

/-- The suggestion record pushed for start index `i` of scan day `d`. -/
def candidateAt (env : Env) (hour12 : Bool) (ps : List Participant)
    (k d i : Nat) (slots : List Slot) : Suggestion :=
  { start := (env.dayAt d, i * 30)
    score := windowCountSum slots i k + requiredScore ps (windowNames slots i k)
    available := windowNames slots i k
    localTimes := mkLocalTimes env hour12 ps (env.dayAt d) (i * 30) (windowNames slots i k)
    day := d }

/-- The candidates one day contributes: start indices `0 ≤ i ≤ 48 - k`
(none when `k > 48`, since the JS loop bound `48 - slotsNeeded` is then
negative), keeping those with a positive score. -/
def candidatesForDay (env : Env) (hour12 : Bool) (ps : List Participant)
    (k d : Nat) (slots : List Slot) : List Suggestion :=
  (List.range ((49 - (k : Int)).toNat)).filterMap fun i =>
    let c := candidateAt env hour12 ps k d i slots
    if 0 < c.score then some c else none

/-- Stable insertion into a list kept descending by score (the JS
`sort((a, b) => b.score - a.score)` is a stable descending sort). -/
def insDesc (a : Suggestion) : List Suggestion → List Suggestion
  | [] => [a]
  | b :: bs => if b.score < a.score then a :: b :: bs else b :: insDesc a bs

/-- Stable descending-by-score sort. -/
def sortByScoreDesc (l : List Suggestion) : List Suggestion :=
  l.foldl (fun acc a => insDesc a acc) []

/-- The body of the per-day loop of `calculateBestTimes`: fetch the day's
grid through the cache and append the day's candidates. -/
def scanStep (env : Env) (excl hour12 : Bool) (ps : List Participant) (k : Nat)
    (a : List Suggestion × SchedState) (d : Nat) : List Suggestion × SchedState :=
  let r := calculateSlotAvailability env excl ps a.2 (env.dayAt d)
  (a.1 ++ candidatesForDay env hour12 ps k d r.1, r.2)

/-- `calculateBestTimes` from src/app.js: scan `days` consecutive days,
collect the positive-score window candidates of each day's (cached) grid,
sort descending by score and keep the first `maxSuggestions`. -/
def calculateBestTimes (env : Env) (s : Settings) (ps : List Participant)
    (st : SchedState) : List Suggestion × SchedState :=
  let k := slotsNeededOf s.duration
  let scan := (List.range s.days).foldl
    (scanStep env s.excludeLunch s.hour12 ps k) ([], st)
  ((sortByScoreDesc scan.1).take s.maxSuggestions, scan.2)

/-- Claim-side predicate: `nm` is in the participant list of at least one
of the `k` slots starting at index `i`. -/
def availableInSome (slots : List Slot) (i k : Nat) (nm : String) : Bool :=
  (List.range k).any fun j =>
    (slotAt slots (i + j)).participants.any fun e => decide (e.name = nm)

/-- The score the original claim C2 describes: the slot-count sum plus 2
per required participant present in EVERY slot of the window. -/
def claimScoreAllSlots (ps : List Participant) (slots : List Slot) (i k : Nat) : Nat :=
  ((List.range k).map fun j => (slotAt slots (i + j)).count).sum
  + 2 * ps.countP fun p =>
      decide (p.priority = some "required") &&
        ((List.range k).all fun j =>
          (slotAt slots (i + j)).participants.any fun e => decide (e.name = p.name))

/-- The score the original claim C5 describes: an absent priority defaults
to required for the bonus as well. -/
def claimScoreDefaulted (ps : List Participant) (slots : List Slot) (i k : Nat) : Nat :=
  windowCountSum slots i k
  + 2 * ps.countP fun p =>
      decide (priorityOrRequired p = "required") && availableInSome slots i k p.name

/-- `Math.round`: floor of `x + 1/2` (JS rounds half toward `+∞`; all
values rounded here are nonnegative). -/
def jsRound (x : ℚ) : Int := ⌊x + 1 / 2⌋

/-- Round to the nearest integer, ties to even (the IEEE-754 significand
rounding). -/
def rne (q : ℚ) : ℤ :=
  if q - ⌊q⌋ < 1 / 2 then ⌊q⌋
  else if 1 / 2 < q - ⌊q⌋ then ⌊q⌋ + 1
  else if ⌊q⌋ % 2 = 0 then ⌊q⌋ else ⌊q⌋ + 1

/-- Fuel-based floor base-2 logarithm, structurally recursive so that
concrete evaluations reduce inside the kernel. -/
def lg2Aux : ℕ → ℕ → ℕ
  | 0, _ => 0
  | fuel + 1, n => if 2 ≤ n then lg2Aux fuel (n / 2) + 1 else 0

/-- Floor base-2 logarithm. -/
def lg2 (n : ℕ) : ℕ := lg2Aux n n

/-- The binade of a positive rational: the `e` with `2 ^ e ≤ q < 2 ^ (e + 1)`. -/
def ilog2q (q : ℚ) : ℤ :=
  let e0 : ℤ := (lg2 q.num.toNat : ℤ) - (lg2 q.den : ℤ) - 1
  if (2 : ℚ) ^ (e0 + 1) ≤ q then e0 + 1 else e0

/-- Round a positive rational to the nearest IEEE-754 binary64 value (53
significant bits, round to nearest, ties to even).  Overflow and the
subnormal range are never reached at the magnitudes this program computes. -/
def roundPos (q : ℚ) : ℚ :=
  ((rne (q * (2 : ℚ) ^ ((52 : ℤ) - ilog2q q)) : ℤ) : ℚ) * (2 : ℚ) ^ (ilog2q q - (52 : ℤ))

/-- Round a rational to the nearest IEEE-754 binary64 value. -/
def roundDouble (q : ℚ) : ℚ :=
  if q = 0 then 0 else if q < 0 then -roundPos (-q) else roundPos q

/-- Binary64 division: the exact quotient, correctly rounded. -/
def fdiv (x y : ℚ) : ℚ := roundDouble (x / y)

/-- Binary64 multiplication: the exact product, correctly rounded. -/
def fmul (x y : ℚ) : ℚ := roundDouble (x * y)

/-- Binary64 addition: the exact sum, correctly rounded. -/
def fadd (x y : ℚ) : ℚ := roundDouble (x + y)

/-- The binary64 value of the literal `0.8` in the source. -/
def d08 : ℚ := roundDouble (4 / 5)

/-- `calculateTimezoneCompatibility` from src/app.js, with every
floating-point operation of the source modelled as the exact operation
followed by correct binary64 rounding.  The slot-count sum, the constants
and the participant count are integers far below `2 ^ 53` in any reachable
state (a JS array is shorter than `2 ^ 32`), hence exact as doubles. -/
def calculateTimezoneCompatibility (env : Env) (excl : Bool)
    (ps : List Participant) (st : SchedState) : Int :=
  if ps.length < 2 then 0
  else
    let slots := (calculateSlotAvailability env excl ps st (env.dayAt 0)).1
    let avgAvailability : ℚ := fdiv (((slots.map (·.count)).sum : ℕ) : ℚ) (slots.length : ℚ)
    let maxPossible : ℚ := (ps.length : ℚ)
    let goldenThreshold : ℤ := ⌈fmul (ps.length : ℚ) d08⌉
    let goldenSlots : ℕ := (slots.filter fun s => decide (goldenThreshold ≤ (s.count : ℤ))).length
    let avgScore : ℚ := fmul (fdiv avgAvailability maxPossible) 60
    let goldenScore : ℚ := fmul (fdiv (goldenSlots : ℚ) 48) 40
    jsRound (fadd avgScore goldenScore)

/-- Whether both participants are inside their own windows at slot `i` of
today (the loop body of `calculatePairOverlap`; a timezone-projection
failure for either participant skips the slot). -/
def bothAvailableAt (env : Env) (p1 p2 : Participant) (day : JSDate) (i : Nat) : Bool :=
  match env.localClock p1.timezone day i, env.localClock p2.timezone day i with
  | some (h1, m1), some (h2, m2) =>
    isInRange (.int ((h1 : Int) * 60 + m1)) (parseTime p1.start) (parseTime p1.stop) &&
    isInRange (.int ((h2 : Int) * 60 + m2)) (parseTime p2.start) (parseTime p2.stop)
  | _, _ => false

/-- `calculatePairOverlap` from src/app.js: overlapping half-hour slots of
today, in hours, rounded to one decimal. -/
def calculatePairOverlap (env : Env) (p1 p2 : Participant) : ℚ :=
  let day := env.dayAt 0
  let overlapSlots := ((List.range 48).filter fun i => bothAvailableAt env p1 p2 day i).length
  ((jsRound (((overlapSlots : ℚ) * 0.5) * 10) : ℚ)) / 10

/-- One reported worst pair. -/
structure PairResult where
  p1 : String
  p2 : String
  overlap : ℚ
deriving DecidableEq, Repr

/-- The unordered index pairs `i < j` in iteration order of the double loop
of `findWorstTimezonePairs`. -/
def pairsOf {α : Type} : List α → List (α × α)
  | [] => []
  | x :: xs => (xs.map fun y => (x, y)) ++ pairsOf xs

/-- Stable insertion into a list kept ascending by overlap (the JS
`sort((a, b) => a.overlap - b.overlap)` is a stable ascending sort). -/
def insAsc (a : PairResult) : List PairResult → List PairResult
  | [] => [a]
  | b :: bs => if a.overlap < b.overlap then a :: b :: bs else b :: insAsc a bs

/-- Stable ascending-by-overlap sort. -/
def sortByOverlapAsc (l : List PairResult) : List PairResult :=
  l.foldl (fun acc a => insAsc a acc) []

/-- `findWorstTimezonePairs` from src/app.js: pairs with under 3 hours of
raw window overlap, sorted ascending, top 3. -/
def findWorstTimezonePairs (env : Env) (ps : List Participant) : List PairResult :=
  if ps.length < 2 then []
  else
    let pairs := (pairsOf ps).filterMap fun pr =>
      let overlap := calculatePairOverlap env pr.1 pr.2
      if overlap < 3 then some (⟨pr.1.name, pr.2.name, overlap⟩ : PairResult) else none
    (sortByOverlapAsc pairs).take 3

/-- Witness settings: 30-minute meeting, one day, five suggestions. -/
def settings30 : Settings := ⟨30, 1, 5, false, false⟩

/-- Witness settings: 60-minute meeting, one day, five suggestions. -/
def settings60 : Settings := ⟨60, 1, 5, false, false⟩

/-- Witness settings: a duration needing 49 slots, more than one day holds. -/
def settingsLong : Settings := ⟨1470, 1, 5, false, false⟩

def sugDefault : Suggestion := ⟨(⟨[]⟩, 0), 0, [], [], 0⟩

/-- The top suggestion for the all-day no-priority participant. -/
def gCarol : Suggestion :=
  (calculateBestTimes utcEnv settings30 [pCarol] ⟨[]⟩).1.headD sugDefault

/-- The top suggestion for Alice (required, 00:00–00:30) and Bob
(optional, 00:00–01:00) with a 60-minute duration. -/
def gAB : Suggestion :=
  (calculateBestTimes utcEnv settings60 [pAlice, pBob] ⟨[]⟩).1.headD sugDefault

lemma splitCh_append (s1 s2 : List Char) (h : ':' ∉ s1) :
    splitCh ':' (s1 ++ ':' :: s2) = s1 :: splitCh ':' s2 := by
  induction s1 with
  | nil => simp [splitCh]
  | cons x xs ih =>
    have hx : x ≠ ':' := fun hx => h (hx ▸ List.mem_cons_self x xs)
    have hxs : ':' ∉ xs := fun hm => h (List.mem_cons_of_mem x hm)
    simp only [List.cons_append, splitCh, if_neg hx, List.append_eq, ih hxs]

lemma splitCh_of_not_mem (s : List Char) (h : ':' ∉ s) :
    splitCh ':' s = [s] := by
  induction s with
  | nil => simp [splitCh]
  | cons x xs ih =>
    have hx : x ≠ ':' := fun hx => h (hx ▸ List.mem_cons_self x xs)
    have hxs : ':' ∉ xs := fun hm => h (List.mem_cons_of_mem x hm)
    simp only [splitCh, if_neg hx, ih hxs]

lemma colon_not_mem_of_digits (l : List Char) (h : l.all (·.isDigit)) :
    ':' ∉ l := by
  intro hm
  have := List.all_eq_true.mp h ':' hm
  simp [Char.isDigit] at this

lemma jsNumber_digits (l : List Char) (h1 : l ≠ []) (h2 : l.all (·.isDigit)) :
    jsNumber l = .int (digitsVal l) := by
  simp [jsNumber, h2, List.isEmpty_iff, h1]

/-- C1: for minute-of-day integers, `isInRange` implements the non-wrapping
rule when `start ≤ end` and the wrapping rule when `start > end`; in
particular the window 1320–360 contains minute 1350 and excludes 420. -/
theorem isInRange_spec (minute start stop : ℕ)
    (hm : minute ≤ 1439) (hs : start ≤ 1439) (he : stop ≤ 1439) :
    (isInRange (JSNum.int minute) (JSNum.int start) (JSNum.int stop) = true ↔
      (if start ≤ stop then start ≤ minute ∧ minute < stop
       else minute ≥ start ∨ minute < stop)) ∧
    isInRange (JSNum.int 1350) (JSNum.int 1320) (JSNum.int 360) = true ∧
    isInRange (JSNum.int 420) (JSNum.int 1320) (JSNum.int 360) = false := by
  refine ⟨?_, by decide, by decide⟩
  by_cases hse : start ≤ stop
  · have hse' : (start : Int) ≤ (stop : Int) := by exact_mod_cast hse
    simp [isInRange, jsLe, jsLt, hse, hse']
  · have hse' : ¬ ((start : Int) ≤ (stop : Int)) := by exact_mod_cast hse
    simp [isInRange, jsLe, jsLt, hse, hse']

/-- Witness for C1 at the wrapping window 22:00–06:00 and minute 22:30. -/
theorem isInRange_spec_witness :
    (isInRange (JSNum.int 1350) (JSNum.int 1320) (JSNum.int 360) = true ↔
      (if (1320 : ℕ) ≤ 360 then 1320 ≤ 1350 ∧ 1350 < 360
       else 1350 ≥ 1320 ∨ 1350 < 360)) ∧
    isInRange (JSNum.int 1350) (JSNum.int 1320) (JSNum.int 360) = true ∧
    isInRange (JSNum.int 420) (JSNum.int 1320) (JSNum.int 360) = false :=
  isInRange_spec 1350 1320 360 (by decide) (by decide) (by decide)

/-- C6 (amended): `parseTime` performs no validation and cannot fail; on a
well-formed `"HH:MM"` input (two nonempty digit components in range) it
returns `HH * 60 + MM`.  Malformed input yields an out-of-range number or
NaN instead of an `InvalidFormat` failure. -/
theorem parseTime_valid (hh mm : List Char)
    (h1 : hh ≠ []) (h2 : mm ≠ [])
    (h3 : hh.all (·.isDigit)) (h4 : mm.all (·.isDigit))
    (h5 : digitsVal hh ≤ 23) (h6 : digitsVal mm ≤ 59) :
    parseTime (hh ++ ':' :: mm) = JSNum.int (digitsVal hh * 60 + digitsVal mm) := by
  have hc1 := colon_not_mem_of_digits hh h3
  have hc2 := colon_not_mem_of_digits mm h4
  unfold parseTime
  rw [splitCh_append hh mm hc1, splitCh_of_not_mem mm hc2]
  simp [jsNumber_digits hh h1 h3, jsNumber_digits mm h2 h4, jsMulInt, jsAdd]

/-- Witness for C6 (amended) at "09:30". -/
theorem parseTime_valid_witness :
    parseTime (['0', '9'] ++ ':' :: ['3', '0']) =
      JSNum.int (digitsVal ['0', '9'] * 60 + digitsVal ['3', '0']) :=
  parseTime_valid ['0', '9'] ['3', '0'] (by decide) (by decide) (by decide)
    (by decide) (by decide) (by decide)

/-- C6 counterexample: on "25:00" the spec's parser fails with
`InvalidFormat`, but the code's `parseTime` succeeds and returns 1500; on
"ab" it returns NaN rather than failing. -/
theorem parseTime_counterexample :
    parseLocalTimeSpec ("25:00".toList) = none ∧
    parseTime ("25:00".toList) = JSNum.int 1500 ∧
    parseTime ("ab".toList) = JSNum.nan := by
  refine ⟨by decide, by decide, by decide⟩

lemma goodCache_nil (env : Env) (excl : Bool) (ps : List Participant) :
    GoodCache env excl ps ⟨[]⟩ := by
  intro day v h
  simp [List.lookup] at h

lemma cacheKey_inj_day {day day' : JSDate} {ps : List Participant}
    (h : cacheKey day' ps = cacheKey day ps) : day' = day := by
  unfold cacheKey at h
  have h1 := List.append_cancel_right h
  have h2 := List.append_cancel_left h1
  cases day; cases day'
  simpa using h2

lemma cacheKey_congr_ids (day : JSDate) {ps ps' : List Participant}
    (h : ps'.map (·.id) = ps.map (·.id)) :
    cacheKey day ps' = cacheKey day ps := by
  unfold cacheKey jsonStringifyIds
  rw [h]

lemma calcSlot_good (env : Env) (excl : Bool) (ps : List Participant)
    (st : SchedState) (day : JSDate) (h : GoodCache env excl ps st) :
    (calculateSlotAvailability env excl ps st day).1 = buildSlots env excl day ps ∧
    GoodCache env excl ps (calculateSlotAvailability env excl ps st day).2 := by
  unfold calculateSlotAvailability
  cases hl : st.cache.lookup (cacheKey day ps) with
  | some v =>
    simp only [hl]
    exact ⟨h day v hl, h⟩
  | none =>
    simp only [hl]
    refine ⟨by trivial, ?_⟩
    intro day' v hv
    by_cases hk : cacheKey day' ps = cacheKey day ps
    · simp only [List.lookup, hk, beq_self_eq_true] at hv
      rw [cacheKey_inj_day hk]
      exact (Option.some_inj.mp hv).symm
    · simp only [List.lookup, beq_eq_false_iff_ne.mpr hk] at hv
      exact h day' v hv

lemma mapIdxFrom_length (f : Nat → Slot → Slot) (n : Nat) (l : List Slot) :
    (mapIdxFrom f n l).length = l.length := by
  induction l generalizing n with
  | nil => rfl
  | cons s rest ih => simp [mapIdxFrom, ih]

lemma mem_mapIdxFrom {f : Nat → Slot → Slot} {n : Nat} {l : List Slot} {s : Slot}
    (h : s ∈ mapIdxFrom f n l) : ∃ i s0, s0 ∈ l ∧ s = f i s0 := by
  induction l generalizing n with
  | nil => simp [mapIdxFrom] at h
  | cons a rest ih =>
    simp only [mapIdxFrom, List.mem_cons] at h
    rcases h with h | h
    · exact ⟨n, a, List.mem_cons_self a rest, h⟩
    · obtain ⟨i, s0, hs0, hes⟩ := ih h
      exact ⟨i, s0, List.mem_cons_of_mem a hs0, hes⟩

lemma slotInv_mono {k : Nat} {s : Slot} (h : SlotInv k s) : SlotInv (k + 1) s :=
  ⟨h.1, h.2.1, Nat.le_succ_of_le h.2.2⟩

lemma slotStep_inv {k : Nat} {s : Slot} (env : Env) (excl : Bool) (day : JSDate)
    (p : Participant) (i : Nat) (h : SlotInv k s) :
    SlotInv (k + 1) (slotStep env excl day p i s) := by
  unfold slotStep
  cases env.localClock p.timezone day i with
  | none => exact slotInv_mono h
  | some hm =>
    obtain ⟨lh, lm⟩ := hm
    simp only
    split
    · exact slotInv_mono h
    · split
      · refine ⟨by simp [h.1], ?_, Nat.succ_le_succ h.2.2⟩
        simp only [Bool.or_eq_true, h.2.1, List.mem_append, List.mem_singleton]
        constructor
        · rintro (⟨e, he, hce⟩ | hc)
          · exact ⟨e, Or.inl he, hce⟩
          · exact ⟨_, Or.inr rfl, by simpa [Bool.or_eq_true] using hc⟩
        · rintro ⟨e, he | rfl, hce⟩
          · exact Or.inl ⟨e, he, hce⟩
          · exact Or.inr (by simpa [Bool.or_eq_true] using hce)
      · exact slotInv_mono h

lemma foldl_slots_inv (env : Env) (excl : Bool) (day : JSDate) :
    ∀ (ps : List Participant) (slots : List Slot) (k : Nat),
      (∀ s ∈ slots, SlotInv k s) →
      ∀ s ∈ ps.foldl (fun sl p => mapIdxFrom (slotStep env excl day p) 0 sl) slots,
        SlotInv (k + ps.length) s := by
  intro ps
  induction ps with
  | nil =>
    intro slots k h s hs
    simpa using h s hs
  | cons p rest ih =>
    intro slots k h s hs
    simp only [List.foldl_cons] at hs
    have h' : ∀ s ∈ mapIdxFrom (slotStep env excl day p) 0 slots, SlotInv (k + 1) s := by
      intro s' hs'
      obtain ⟨i, s0, hs0, rfl⟩ := mem_mapIdxFrom hs'
      exact slotStep_inv env excl day p i (h s0 hs0)
    have hk : k + (p :: rest).length = (k + 1) + rest.length := by
      simp only [List.length_cons]
      omega
    rw [hk]
    exact ih _ (k + 1) h' s hs

lemma buildSlots_inv (env : Env) (excl : Bool) (day : JSDate)
    (ps : List Participant) :
    ∀ s ∈ buildSlots env excl day ps, SlotInv ps.length s := by
  intro s hs
  have h0 : ∀ s ∈ initSlots, SlotInv 0 s := by
    intro s hs
    have hrep : s = ⟨0, [], false⟩ := List.eq_of_mem_replicate hs
    subst hrep
    exact ⟨rfl, by simp, Nat.le_refl 0⟩
  have := foldl_slots_inv env excl day ps initSlots 0 h0 s hs
  simpa using this

lemma foldl_slots_length (env : Env) (excl : Bool) (day : JSDate) :
    ∀ (ps : List Participant) (slots : List Slot),
      (ps.foldl (fun sl p => mapIdxFrom (slotStep env excl day p) 0 sl) slots).length
        = slots.length := by
  intro ps
  induction ps with
  | nil => intro slots; rfl
  | cons p rest ih =>
    intro slots
    simp only [List.foldl_cons, ih, mapIdxFrom_length]

lemma buildSlots_length (env : Env) (excl : Bool) (day : JSDate)
    (ps : List Participant) :
    (buildSlots env excl day ps).length = 48 := by
  unfold buildSlots
  rw [foldl_slots_length]
  rfl

/-- C4 (amended): a second grid request with the same calendar day and the
same ordered participant-id tuple returns the cached grid without
recomputation — including after an edit that changes a participant's window,
timezone, name or priority while keeping its id, in which case the stale
cached grid is returned unchanged; only a request whose key differs (day
change, or a change of the ordered id tuple by add/remove/reorder) misses
the cache and recomputes the grid. -/
theorem calculateSlotAvailability_cache (env : Env) (excl : Bool)
    (ps ps' ps2 : List Participant) (day day' : JSDate)
    (hids : ps'.map (·.id) = ps.map (·.id))
    (hday : cacheKey day' ps ≠ cacheKey day ps)
    (hadd : cacheKey day ps2 ≠ cacheKey day ps) :
    (calculateSlotAvailability env excl ps ⟨[]⟩ day).1 = buildSlots env excl day ps ∧
    calculateSlotAvailability env excl ps'
        (calculateSlotAvailability env excl ps ⟨[]⟩ day).2 day =
      ((calculateSlotAvailability env excl ps ⟨[]⟩ day).1,
        (calculateSlotAvailability env excl ps ⟨[]⟩ day).2) ∧
    (calculateSlotAvailability env excl ps
        (calculateSlotAvailability env excl ps ⟨[]⟩ day).2 day').1 =
      buildSlots env excl day' ps ∧
    (calculateSlotAvailability env excl ps2
        (calculateSlotAvailability env excl ps ⟨[]⟩ day).2 day).1 =
      buildSlots env excl day ps2 := by
  have hfirst : calculateSlotAvailability env excl ps ⟨[]⟩ day =
      (buildSlots env excl day ps,
        ⟨[(cacheKey day ps, buildSlots env excl day ps)]⟩) := by
    simp [calculateSlotAvailability, List.lookup]
  rw [hfirst]
  have hk := cacheKey_congr_ids day hids
  refine ⟨rfl, ?_, ?_, ?_⟩
  · simp [calculateSlotAvailability, List.lookup, hk]
  · simp [calculateSlotAvailability, List.lookup, beq_eq_false_iff_ne.mpr hday]
  · simp [calculateSlotAvailability, List.lookup, beq_eq_false_iff_ne.mpr hadd]

/-- Witness for C4 (amended): one participant, an id-preserving window edit,
a day change, and a participant addition, in the concrete UTC environment. -/
theorem calculateSlotAvailability_cache_witness :
    (calculateSlotAvailability utcEnv false [pAlice] ⟨[]⟩ dayMon).1 =
      buildSlots utcEnv false dayMon [pAlice] ∧
    calculateSlotAvailability utcEnv false [pAliceEdit]
        (calculateSlotAvailability utcEnv false [pAlice] ⟨[]⟩ dayMon).2 dayMon =
      ((calculateSlotAvailability utcEnv false [pAlice] ⟨[]⟩ dayMon).1,
        (calculateSlotAvailability utcEnv false [pAlice] ⟨[]⟩ dayMon).2) ∧
    (calculateSlotAvailability utcEnv false [pAlice]
        (calculateSlotAvailability utcEnv false [pAlice] ⟨[]⟩ dayMon).2 dayTue).1 =
      buildSlots utcEnv false dayTue [pAlice] ∧
    (calculateSlotAvailability utcEnv false [pAlice, pBob]
        (calculateSlotAvailability utcEnv false [pAlice] ⟨[]⟩ dayMon).2 dayMon).1 =
      buildSlots utcEnv false dayMon [pAlice, pBob] :=
  calculateSlotAvailability_cache utcEnv false [pAlice] [pAliceEdit] [pAlice, pBob]
    dayMon dayTue (by decide) (by decide) (by decide)

/-- C4 counterexample: after an id-preserving edit that moves Alice's window
from 00:00–00:30 to 02:00–03:00, the next request for the same day hits the
cache and returns the grid of the old window — not a recomputation, which
would have produced a different grid. -/
theorem calculateSlotAvailability_edit_counterexample :
    (calculateSlotAvailability utcEnv false [pAliceEdit]
        (calculateSlotAvailability utcEnv false [pAlice] ⟨[]⟩ dayMon).2 dayMon).1 =
      buildSlots utcEnv false dayMon [pAlice] ∧
    buildSlots utcEnv false dayMon [pAlice] ≠
      buildSlots utcEnv false dayMon [pAliceEdit] := by
  constructor
  · decide
  · decide

/-- C10: every grid `calculateSlotAvailability` returns (from a cache whose
entries are honestly computed grids) has 48 slots, and in each slot `count`
equals the length of its `participants` list while `hasConflict` holds iff
some entry of that list has `isConflict`. -/
theorem calculateSlotAvailability_slot_invariant (env : Env) (excl : Bool)
    (ps : List Participant) (st : SchedState) (day : JSDate)
    (hst : GoodCache env excl ps st) :
    (calculateSlotAvailability env excl ps st day).1.length = 48 ∧
    ∀ s ∈ (calculateSlotAvailability env excl ps st day).1,
      s.count = s.participants.length ∧
      (s.hasConflict = true ↔ ∃ e ∈ s.participants, e.isConflict = true) := by
  rw [(calcSlot_good env excl ps st day hst).1]
  exact ⟨buildSlots_length env excl day ps,
    fun s hs => ⟨(buildSlots_inv env excl day ps s hs).1,
      (buildSlots_inv env excl day ps s hs).2.1⟩⟩

/-- Witness for C10 at the first slot of a concrete grid. -/
theorem calculateSlotAvailability_slot_invariant_witness :
    slotSample.count = slotSample.participants.length ∧
    (slotSample.hasConflict = true ↔ ∃ e ∈ slotSample.participants, e.isConflict = true) :=
  (calculateSlotAvailability_slot_invariant utcEnv false [pAlice] ⟨[]⟩ dayMon
    (goodCache_nil utcEnv false [pAlice])).2 slotSample (by decide)

/-- C8 counterexample data: 00:00–03:00. -/
def pDawn : Participant :=
  ⟨"id-d", "Dana", "UTC", "00:00".toList, "03:00".toList, some "optional", "#111"⟩

/-- C8 counterexample data: 02:30–05:00. -/
def pLate : Participant :=
  ⟨"id-e", "Eve", "UTC", "02:30".toList, "05:00".toList, some "optional", "#222"⟩

/-- C8 counterexample data: 00:30–03:00.  With `pDawn` and `pLate` this
yields today's grid with slot-count sum 16 and one golden slot. -/
def pMid : Participant :=
  ⟨"id-f", "Fay", "UTC", "00:30".toList, "03:00".toList, some "optional", "#333"⟩

lemma mem_insDesc (x a : Suggestion) (l : List Suggestion) :
    x ∈ insDesc a l ↔ x = a ∨ x ∈ l := by
  induction l with
  | nil => simp [insDesc]
  | cons b bs ih =>
    unfold insDesc
    split
    · simp [List.mem_cons]
    · simp only [List.mem_cons, ih]
      tauto

lemma mem_sortByScoreDesc (x : Suggestion) (l : List Suggestion) :
    x ∈ sortByScoreDesc l ↔ x ∈ l := by
  unfold sortByScoreDesc
  suffices h : ∀ (l acc : List Suggestion),
      x ∈ l.foldl (fun acc a => insDesc a acc) acc ↔ x ∈ acc ∨ x ∈ l by
    simpa using h l []
  intro l
  induction l with
  | nil => simp
  | cons b bs ih =>
    intro acc
    simp only [List.foldl_cons, ih, mem_insDesc, List.mem_cons]
    tauto

lemma scan_spec (env : Env) (excl hour12 : Bool) (ps : List Participant) (k : Nat) :
    ∀ (n : Nat) (st : SchedState) (acc : List Suggestion),
      GoodCache env excl ps st →
      ((List.range n).foldl (scanStep env excl hour12 ps k) (acc, st)).1
          = acc ++ (List.range n).flatMap
              (fun d => candidatesForDay env hour12 ps k d
                (buildSlots env excl (env.dayAt d) ps)) ∧
      GoodCache env excl ps
        ((List.range n).foldl (scanStep env excl hour12 ps k) (acc, st)).2 := by
  intro n
  induction n with
  | zero =>
    intro st acc h
    constructor
    · simp
    · exact h
  | succ m ih =>
    intro st acc h
    obtain ⟨h1, h2⟩ := ih st acc h
    obtain ⟨hg1, hg2⟩ := calcSlot_good env excl ps
      ((List.range m).foldl (scanStep env excl hour12 ps k) (acc, st)).2 (env.dayAt m) h2
    rw [List.range_succ, List.foldl_append]
    constructor
    · simp only [List.foldl_cons, List.foldl_nil, scanStep, hg1, h1]
      rw [List.flatMap_append]
      simp [List.append_assoc]
    · simp only [List.foldl_cons, List.foldl_nil, scanStep]
      exact hg2

lemma mem_bestTimes {env : Env} {s : Settings} {ps : List Participant}
    {st : SchedState} {g : Suggestion}
    (hst : GoodCache env s.excludeLunch ps st)
    (hg : g ∈ (calculateBestTimes env s ps st).1) :
    ∃ d i, d < s.days ∧ i + slotsNeededOf s.duration ≤ 48 ∧
      g = candidateAt env s.hour12 ps (slotsNeededOf s.duration) d i
            (buildSlots env s.excludeLunch (env.dayAt d) ps) ∧
      0 < g.score := by
  unfold calculateBestTimes at hg
  simp only at hg
  have hmem := List.mem_of_mem_take hg
  rw [mem_sortByScoreDesc] at hmem
  rw [(scan_spec env s.excludeLunch s.hour12 ps (slotsNeededOf s.duration)
        s.days st [] hst).1] at hmem
  simp only [List.nil_append] at hmem
  rw [List.mem_flatMap] at hmem
  obtain ⟨d, hd, hmem⟩ := hmem
  rw [List.mem_range] at hd
  unfold candidatesForDay at hmem
  rw [List.mem_filterMap] at hmem
  obtain ⟨i, hi, hif⟩ := hmem
  rw [List.mem_range] at hi
  simp only at hif
  split at hif
  · rename_i hpos
    have hgc : g = candidateAt env s.hour12 ps (slotsNeededOf s.duration) d i
        (buildSlots env s.excludeLunch (env.dayAt d) ps) :=
      (Option.some_inj.mp hif).symm
    refine ⟨d, i, hd, by omega, hgc, by rw [hgc]; exact hpos⟩
  · exact absurd hif (by simp)

lemma mem_addName {y x : String} {s : List String} :
    y ∈ addName s x ↔ y ∈ s ∨ y = x := by
  unfold addName
  split
  · rename_i h
    constructor
    · exact Or.inl
    · rintro (hy | rfl)
      · exact hy
      · exact h
  · simp [List.mem_append]

lemma nodup_addName {s : List String} {x : String} (h : s.Nodup) :
    (addName s x).Nodup := by
  unfold addName
  split
  · exact h
  · rename_i hx
    refine List.Nodup.append h (List.nodup_singleton x) ?_
    intro a ha hax
    rw [List.mem_singleton] at hax
    exact hx (hax ▸ ha)

lemma foldl_addName_mem (y : String) :
    ∀ (l : List SlotEntry) (acc : List String),
      y ∈ l.foldl (fun a e => addName a e.name) acc ↔
        y ∈ acc ∨ ∃ e ∈ l, e.name = y := by
  intro l
  induction l with
  | nil => intro acc; simp
  | cons e rest ih =>
    intro acc
    simp only [List.foldl_cons, ih, mem_addName]
    constructor
    · rintro ((hy | rfl) | ⟨e', he', h⟩)
      · exact Or.inl hy
      · exact Or.inr ⟨e, List.mem_cons_self e rest, rfl⟩
      · exact Or.inr ⟨e', List.mem_cons_of_mem e he', h⟩
    · rintro (hy | ⟨e', he', h⟩)
      · exact Or.inl (Or.inl hy)
      · rcases List.mem_cons.mp he' with rfl | he'
        · exact Or.inl (Or.inr h.symm)
        · exact Or.inr ⟨e', he', h⟩

lemma foldl_addName_nodup :
    ∀ (l : List SlotEntry) (acc : List String), acc.Nodup →
      (l.foldl (fun a e => addName a e.name) acc).Nodup := by
  intro l
  induction l with
  | nil => intro acc h; simpa using h
  | cons e rest ih =>
    intro acc h
    simp only [List.foldl_cons]
    exact ih _ (nodup_addName h)

lemma mem_windowNames (slots : List Slot) (i k : Nat) (y : String) :
    y ∈ windowNames slots i k ↔
      ∃ j < k, ∃ e ∈ (slotAt slots (i + j)).participants, e.name = y := by
  unfold windowNames
  suffices h : ∀ (js : List Nat) (acc : List String),
      y ∈ js.foldl
          (fun acc j =>
            (slotAt slots (i + j)).participants.foldl (fun a e => addName a e.name) acc)
          acc ↔
        y ∈ acc ∨ ∃ j ∈ js, ∃ e ∈ (slotAt slots (i + j)).participants, e.name = y by
    rw [h (List.range k) []]
    simp [List.mem_range]
  intro js
  induction js with
  | nil => intro acc; simp
  | cons j rest ih =>
    intro acc
    simp only [List.foldl_cons, ih, foldl_addName_mem]
    constructor
    · rintro ((hy | ⟨e, he, h⟩) | ⟨j', hj', he⟩)
      · exact Or.inl hy
      · exact Or.inr ⟨j, List.mem_cons_self j rest, e, he, h⟩
      · exact Or.inr ⟨j', List.mem_cons_of_mem j hj', he⟩
    · rintro (hy | ⟨j', hj', he⟩)
      · exact Or.inl (Or.inl hy)
      · rcases List.mem_cons.mp hj' with rfl | hj'
        · exact Or.inl (Or.inr he)
        · exact Or.inr ⟨j', hj', he⟩

lemma nodup_windowNames (slots : List Slot) (i k : Nat) :
    (windowNames slots i k).Nodup := by
  unfold windowNames
  suffices h : ∀ (js : List Nat) (acc : List String), acc.Nodup →
      (js.foldl
        (fun acc j =>
          (slotAt slots (i + j)).participants.foldl (fun a e => addName a e.name) acc)
        acc).Nodup from
    h (List.range k) [] List.nodup_nil
  intro js
  induction js with
  | nil => intro acc h; simpa using h
  | cons j rest ih =>
    intro acc h
    simp only [List.foldl_cons]
    exact ih _ (foldl_addName_nodup _ _ h)

lemma foldl_add_eq_sum (f : Nat → Nat) :
    ∀ (l : List Nat) (acc : Nat),
      l.foldl (fun a j => a + f j) acc = acc + (l.map f).sum := by
  intro l
  induction l with
  | nil => intro acc; simp
  | cons j rest ih =>
    intro acc
    simp only [List.foldl_cons, List.map_cons, List.sum_cons, ih]
    omega

lemma windowCountSum_eq (slots : List Slot) (i k : Nat) :
    windowCountSum slots i k
      = ((List.range k).map fun j => (slotAt slots (i + j)).count).sum := by
  unfold windowCountSum
  rw [foldl_add_eq_sum]
  simp

lemma requiredScore_eq (ps : List Participant) (names : List String) :
    requiredScore ps names
      = 2 * ps.countP fun p =>
          decide (p.priority = some "required") && decide (p.name ∈ names) := by
  unfold requiredScore
  suffices h : ∀ (l : List Participant) (acc : Nat),
      l.foldl
          (fun acc p =>
            if p.priority = some "required" ∧ p.name ∈ names then acc + 2 else acc)
          acc
        = acc + 2 * l.countP fun p =>
            decide (p.priority = some "required") && decide (p.name ∈ names) by
    simpa using h ps 0
  intro l
  induction l with
  | nil => intro acc; simp
  | cons p rest ih =>
    intro acc
    simp only [List.foldl_cons, List.countP_cons, ih]
    by_cases hp : p.priority = some "required" ∧ p.name ∈ names
    · have hb : (decide (p.priority = some "required") && decide (p.name ∈ names)) = true := by
        simp [hp.1, hp.2]
      rw [if_pos hp, hb, show (if (true = true) then (1 : Nat) else 0) = 1 from rfl]
      omega
    · have hb : (decide (p.priority = some "required") && decide (p.name ∈ names)) = false := by
        simpa [Bool.and_eq_true, decide_eq_true_eq] using hp
      rw [if_neg hp, hb, show (if (false = true) then (1 : Nat) else 0) = 0 from rfl]
      omega

lemma availableInSome_iff (slots : List Slot) (i k : Nat) (nm : String) :
    availableInSome slots i k nm = true ↔
      ∃ j < k, ∃ e ∈ (slotAt slots (i + j)).participants, e.name = nm := by
  unfold availableInSome
  simp [List.any_eq_true, List.mem_range]

lemma decide_mem_windowNames (slots : List Slot) (i k : Nat) (nm : String) :
    decide (nm ∈ windowNames slots i k) = availableInSome slots i k nm := by
  by_cases h : nm ∈ windowNames slots i k
  · rw [decide_eq_true h]
    exact ((availableInSome_iff slots i k nm).mpr
      ((mem_windowNames slots i k nm).mp h)).symm
  · rw [decide_eq_false h]
    have h2 : availableInSome slots i k nm = false := by
      rw [Bool.eq_false_iff]
      intro hc
      exact h ((mem_windowNames slots i k nm).mpr ((availableInSome_iff slots i k nm).mp hc))
    exact h2.symm

lemma countP_congr_mem {α : Type} (l : List α) {p q : α → Bool}
    (h : ∀ a ∈ l, p a = q a) : l.countP p = l.countP q := by
  induction l with
  | nil => rfl
  | cons a rest ih =>
    simp only [List.countP_cons, h a (List.mem_cons_self a rest),
      ih fun b hb => h b (List.mem_cons_of_mem a hb)]

lemma map_priority_mkLocalTimes (env : Env) (hour12 : Bool)
    (ps : List Participant) (day : JSDate) (m : Nat) (names : List String) :
    (mkLocalTimes env hour12 ps day m names).map (·.priority)
      = ps.map priorityOrRequired := by
  unfold mkLocalTimes
  rw [List.map_map]
  apply List.map_congr_left
  intro p _
  simp only [Function.comp_apply]
  cases env.formatLocal p.timezone day m hour12 <;> rfl

/-- C2 (amended): every suggestion the ranker returns is a window of
`slotsNeeded = ceil(duration/30)` consecutive slots of some scanned day's
grid, and its score is the sum of `slot.count` over that window plus 2
points for each participant with priority exactly `'required'` who is
present in AT LEAST ONE slot of the window (the code unions the per-slot
participant sets; it does not intersect them). -/
theorem calculateBestTimes_score (env : Env) (s : Settings) (ps : List Participant)
    (st : SchedState) (hst : GoodCache env s.excludeLunch ps st) :
    ∀ g ∈ (calculateBestTimes env s ps st).1,
      ∃ d i, d < s.days ∧ i + slotsNeededOf s.duration ≤ 48 ∧
        g.day = d ∧ g.start = (env.dayAt d, i * 30) ∧
        g.score =
          ((List.range (slotsNeededOf s.duration)).map fun j =>
              (slotAt (buildSlots env s.excludeLunch (env.dayAt d) ps) (i + j)).count).sum
          + 2 * ps.countP fun p =>
              decide (p.priority = some "required") &&
                availableInSome (buildSlots env s.excludeLunch (env.dayAt d) ps) i
                  (slotsNeededOf s.duration) p.name := by
  intro g hg
  obtain ⟨d, i, hd, hik, hgc, _⟩ := mem_bestTimes hst hg
  refine ⟨d, i, hd, hik, by rw [hgc]; rfl, by rw [hgc]; rfl, ?_⟩
  rw [hgc]
  show windowCountSum _ i (slotsNeededOf s.duration)
      + requiredScore ps (windowNames _ i (slotsNeededOf s.duration)) = _
  rw [windowCountSum_eq, requiredScore_eq]
  congr 2
  apply countP_congr_mem
  intro p _
  rw [decide_mem_windowNames]

/-- Witness for C2 (amended): the top suggestion of a one-participant
all-day scenario. -/
theorem calculateBestTimes_score_witness :
    ∃ d i, d < settings30.days ∧ i + slotsNeededOf settings30.duration ≤ 48 ∧
      gCarol.day = d ∧ gCarol.start = (utcEnv.dayAt d, i * 30) ∧
      gCarol.score =
        ((List.range (slotsNeededOf settings30.duration)).map fun j =>
            (slotAt (buildSlots utcEnv settings30.excludeLunch (utcEnv.dayAt d) [pCarol])
              (i + j)).count).sum
        + 2 * [pCarol].countP fun p =>
            decide (p.priority = some "required") &&
              availableInSome (buildSlots utcEnv settings30.excludeLunch (utcEnv.dayAt d) [pCarol])
                i (slotsNeededOf settings30.duration) p.name :=
  calculateBestTimes_score utcEnv settings30 [pCarol] ⟨[]⟩
    (goodCache_nil utcEnv settings30.excludeLunch [pCarol]) gCarol (by decide)

/-- C2 counterexample: with required Alice (00:00–00:30) and optional Bob
(00:00–01:00) and a 60-minute duration, the top suggestion (the window of
slots 0–1) scores 5 — Alice collects the required bonus although she is
absent from slot 1 — while the score the claim describes (bonus only for
required participants present in every slot) is 3. -/
theorem calculateBestTimes_score_counterexample :
    gAB.day = 0 ∧ gAB.start = (utcEnv.dayAt 0, 0) ∧ gAB.score = 5 ∧
    claimScoreAllSlots [pAlice, pBob]
      (buildSlots utcEnv false (utcEnv.dayAt 0) [pAlice, pBob]) 0 2 = 3 := by
  refine ⟨by decide, by decide, by decide, by decide⟩

/-- C3 (amended): the `available` field of every returned suggestion is
exactly the deduplicated set of names of participants present in AT LEAST
ONE of the window's slots (the union of the per-slot participant sets, in
insertion order), not the intersection. -/
theorem calculateBestTimes_available (env : Env) (s : Settings) (ps : List Participant)
    (st : SchedState) (hst : GoodCache env s.excludeLunch ps st) :
    ∀ g ∈ (calculateBestTimes env s ps st).1,
      ∃ d i, d < s.days ∧ i + slotsNeededOf s.duration ≤ 48 ∧
        g.day = d ∧ g.start = (env.dayAt d, i * 30) ∧
        g.available.Nodup ∧
        ∀ nm, nm ∈ g.available ↔
          ∃ j < slotsNeededOf s.duration,
            ∃ e ∈ (slotAt (buildSlots env s.excludeLunch (env.dayAt d) ps) (i + j)).participants,
              e.name = nm := by
  intro g hg
  obtain ⟨d, i, hd, hik, hgc, _⟩ := mem_bestTimes hst hg
  refine ⟨d, i, hd, hik, by rw [hgc]; rfl, by rw [hgc]; rfl, ?_, ?_⟩
  · rw [hgc]
    exact nodup_windowNames _ i (slotsNeededOf s.duration)
  · intro nm
    rw [hgc]
    exact mem_windowNames _ i (slotsNeededOf s.duration) nm

/-- Witness for C3 (amended) at the same concrete scenario. -/
theorem calculateBestTimes_available_witness :
    ∃ d i, d < settings30.days ∧ i + slotsNeededOf settings30.duration ≤ 48 ∧
      gCarol.day = d ∧ gCarol.start = (utcEnv.dayAt d, i * 30) ∧
      gCarol.available.Nodup ∧
      ∀ nm, nm ∈ gCarol.available ↔
        ∃ j < slotsNeededOf settings30.duration,
          ∃ e ∈ (slotAt (buildSlots utcEnv settings30.excludeLunch (utcEnv.dayAt d) [pCarol])
              (i + j)).participants,
            e.name = nm :=
  calculateBestTimes_available utcEnv settings30 [pCarol] ⟨[]⟩
    (goodCache_nil utcEnv settings30.excludeLunch [pCarol]) gCarol (by decide)

/-- C3 counterexample: in the Alice/Bob 60-minute scenario the top
suggestion's `available` contains Alice although she is absent from slot 1
of its window, so `available` is not the intersection of the per-slot
participant sets. -/
theorem calculateBestTimes_available_counterexample :
    "Alice" ∈ gAB.available ∧
    ¬ ∃ e ∈ (slotAt (buildSlots utcEnv false (utcEnv.dayAt 0) [pAlice, pBob]) 1).participants,
        e.name = "Alice" := by
  refine ⟨by decide, by decide⟩

/-- C5 (amended): a participant whose `priority` field is absent is shown
as `'required'` in every suggestion's `localTimes` (the `|| 'required'`
default), but does NOT contribute the 2-point bonus: the bonus requires a
priority that is exactly the string `'required'`, so when no participant
has that explicit priority every returned score is the plain slot-count
sum. -/
theorem calculateBestTimes_priority_default (env : Env) (s : Settings)
    (ps : List Participant) (st : SchedState)
    (hst : GoodCache env s.excludeLunch ps st) :
    ∀ g ∈ (calculateBestTimes env s ps st).1,
      g.localTimes.map (·.priority) = ps.map priorityOrRequired ∧
      (ps.countP (fun p => decide (p.priority = some "required")) = 0 →
        ∃ d i, d < s.days ∧ i + slotsNeededOf s.duration ≤ 48 ∧
          g.score =
            ((List.range (slotsNeededOf s.duration)).map fun j =>
                (slotAt (buildSlots env s.excludeLunch (env.dayAt d) ps) (i + j)).count).sum) := by
  intro g hg
  obtain ⟨d, i, hd, hik, hgc, _⟩ := mem_bestTimes hst hg
  constructor
  · rw [hgc]
    exact map_priority_mkLocalTimes env s.hour12 ps (env.dayAt d) (i * 30)
      (windowNames _ i (slotsNeededOf s.duration))
  · intro hnone
    refine ⟨d, i, hd, hik, ?_⟩
    rw [hgc]
    show windowCountSum _ i (slotsNeededOf s.duration)
        + requiredScore ps (windowNames _ i (slotsNeededOf s.duration)) = _
    rw [windowCountSum_eq, requiredScore_eq]
    have hz : ps.countP (fun p =>
        decide (p.priority = some "required") &&
          decide (p.name ∈ windowNames (buildSlots env s.excludeLunch (env.dayAt d) ps) i
            (slotsNeededOf s.duration))) = 0 := by
      have hle : ps.countP (fun p =>
            decide (p.priority = some "required") &&
              decide (p.name ∈ windowNames (buildSlots env s.excludeLunch (env.dayAt d) ps) i
                (slotsNeededOf s.duration)))
          ≤ ps.countP (fun p => decide (p.priority = some "required")) :=
        List.countP_mono_left (fun p _ hb => by
          simp only [Bool.and_eq_true] at hb
          exact hb.1)
      omega
    rw [hz]
    omega

/-- Witness for C5 (amended): Carol has no priority field; her local-time
entry shows `'required'` and the score stays the plain slot-count sum. -/
theorem calculateBestTimes_priority_default_witness :
    gCarol.localTimes.map (·.priority) = [pCarol].map priorityOrRequired ∧
    ([pCarol].countP (fun p => decide (p.priority = some "required")) = 0 →
      ∃ d i, d < settings30.days ∧ i + slotsNeededOf settings30.duration ≤ 48 ∧
        gCarol.score =
          ((List.range (slotsNeededOf settings30.duration)).map fun j =>
              (slotAt (buildSlots utcEnv settings30.excludeLunch (utcEnv.dayAt d) [pCarol])
                (i + j)).count).sum) :=
  calculateBestTimes_priority_default utcEnv settings30 [pCarol] ⟨[]⟩
    (goodCache_nil utcEnv settings30.excludeLunch [pCarol]) gCarol (by decide)

/-- C5 counterexample: Carol (no priority field, available all day) tops
the ranking with score 1 — no 2-point bonus — although her `localTimes`
entry carries `'required'`; the claim's treat-as-required scoring would
give 3. -/
theorem calculateBestTimes_priority_counterexample :
    gCarol.score = 1 ∧ gCarol.available = ["Carol"] ∧
    gCarol.localTimes.map (·.priority) = ["required"] ∧
    claimScoreDefaulted [pCarol]
      (buildSlots utcEnv false (utcEnv.dayAt 0) [pCarol]) 0 1 = 3 := by
  refine ⟨by decide, by decide, by decide, by decide⟩

/-- C7: when `slotsNeeded = ceil(duration/30)` exceeds 48, no candidate
window fits in a day, and the ranker returns the empty list (the JS loop
bound `48 - slotsNeeded` is negative, so no iteration runs and nothing can
throw). -/
theorem calculateBestTimes_longDuration (env : Env) (s : Settings)
    (ps : List Participant) (st : SchedState)
    (h : 48 < slotsNeededOf s.duration) :
    (calculateBestTimes env s ps st).1 = [] := by
  have hcand : ∀ d slots, candidatesForDay env s.hour12 ps (slotsNeededOf s.duration) d slots = [] := by
    intro d slots
    unfold candidatesForDay
    have h0 : (49 - (slotsNeededOf s.duration : Int)).toNat = 0 := by omega
    rw [h0]
    rfl
  unfold calculateBestTimes
  simp only
  suffices hs : ∀ (l : List Nat) (a : List Suggestion × SchedState), a.1 = [] →
      ((l.foldl (scanStep env s.excludeLunch s.hour12 ps (slotsNeededOf s.duration)) a).1 = []) by
    rw [hs (List.range s.days) ([], st) rfl]
    simp [sortByScoreDesc]
  intro l
  induction l with
  | nil => intro a ha; exact ha
  | cons d rest ih =>
    intro a ha
    simp only [List.foldl_cons]
    apply ih
    simp [scanStep, ha, hcand]

/-- Witness for C7: a 1470-minute duration (49 slots) yields no suggestions. -/
theorem calculateBestTimes_longDuration_witness :
    (calculateBestTimes utcEnv settingsLong [pAlice] ⟨[]⟩).1 = [] :=
  calculateBestTimes_longDuration utcEnv settingsLong [pAlice] ⟨[]⟩ (by decide)

lemma jsRound_bounds {x : ℚ} (h0 : 0 ≤ x) (h100 : x ≤ 100) :
    0 ≤ jsRound x ∧ jsRound x ≤ 100 := by
  unfold jsRound
  constructor
  · exact Int.le_floor.mpr (by push_cast; linarith)
  · have h : ⌊x + 1 / 2⌋ < 101 := Int.floor_lt.mpr (by push_cast; linarith)
    omega

lemma rne_intCast (k : ℤ) : rne (k : ℚ) = k := by
  unfold rne
  simp

lemma floor_le_rne (q : ℚ) : ⌊q⌋ ≤ rne q := by
  unfold rne
  split_ifs <;> omega

lemma rne_le_floor_add_one (q : ℚ) : rne q ≤ ⌊q⌋ + 1 := by
  unfold rne
  split_ifs <;> omega

lemma le_rne (q : ℚ) : q - 1 / 2 ≤ (rne q : ℚ) := by
  have h1 := Int.floor_le q
  have h2 := Int.lt_floor_add_one q
  unfold rne
  split_ifs <;> push_cast <;> linarith

lemma rne_le (q : ℚ) : (rne q : ℚ) ≤ q + 1 / 2 := by
  have h1 := Int.floor_le q
  have h2 := Int.lt_floor_add_one q
  unfold rne
  split_ifs <;> push_cast <;> linarith

lemma rne_mono {x y : ℚ} (h : x ≤ y) : rne x ≤ rne y := by
  rcases eq_or_lt_of_le (Int.floor_le_floor h) with hf | hf
  · unfold rne
    rw [← hf]
    split_ifs <;> (try omega) <;> (exfalso; linarith)
  · calc rne x ≤ ⌊x⌋ + 1 := rne_le_floor_add_one x
      _ ≤ ⌊y⌋ := by omega
      _ ≤ rne y := floor_le_rne y

lemma int_le_rne_of_le {C : ℤ} {q : ℚ} (h : (C : ℚ) ≤ q) : C ≤ rne q := by
  have h1 := floor_le_rne q
  have h2 : C ≤ ⌊q⌋ := Int.le_floor.mpr h
  omega

lemma rne_le_int_of_lt {C : ℤ} {q : ℚ} (h : q < (C : ℚ)) : rne q ≤ C := by
  have h1 := rne_le q
  have h2 : (rne q : ℚ) < (C : ℚ) + 1 := by linarith
  have h3 : rne q < C + 1 := by exact_mod_cast h2
  omega

lemma two_zpow_pos (e : ℤ) : (0 : ℚ) < 2 ^ e := zpow_pos (by norm_num) e

lemma two_zpow_mul (a b : ℤ) : (2 : ℚ) ^ a * (2 : ℚ) ^ b = (2 : ℚ) ^ (a + b) :=
  (zpow_add₀ (by norm_num) a b).symm

lemma two_zpow_natCast (n : ℕ) : ((2 ^ n : ℕ) : ℚ) = (2 : ℚ) ^ (n : ℤ) := by
  rw [zpow_natCast]
  push_cast
  ring

lemma lg2Aux_spec : ∀ (fuel n : ℕ), n ≠ 0 → n ≤ fuel →
    2 ^ lg2Aux fuel n ≤ n ∧ n < 2 ^ (lg2Aux fuel n + 1) := by
  intro fuel
  induction fuel with
  | zero =>
    intro n h0 hle
    omega
  | succ f ih =>
    intro n h0 hle
    simp only [lg2Aux]
    split_ifs with h2
    · obtain ⟨hr1, hr2⟩ := ih (n / 2) (by omega) (by omega)
      constructor
      · calc 2 ^ (lg2Aux f (n / 2) + 1) = 2 * 2 ^ lg2Aux f (n / 2) := by ring
          _ ≤ 2 * (n / 2) := by omega
          _ ≤ n := by omega
      · calc n < 2 * (n / 2) + 2 := by omega
          _ ≤ 2 * 2 ^ (lg2Aux f (n / 2) + 1) := by omega
          _ = 2 ^ (lg2Aux f (n / 2) + 1 + 1) := by ring
    · have hn1 : n = 1 := by omega
      subst hn1
      simp

lemma lg2_spec {n : ℕ} (h : n ≠ 0) : 2 ^ lg2 n ≤ n ∧ n < 2 ^ (lg2 n + 1) :=
  lg2Aux_spec n n h (le_refl n)

lemma ilog2q_spec {q : ℚ} (hq : 0 < q) :
    (2 : ℚ) ^ ilog2q q ≤ q ∧ q < (2 : ℚ) ^ (ilog2q q + 1) := by
  have hnum : 0 < q.num := Rat.num_pos.mpr hq
  have hbq : (0 : ℚ) < (q.den : ℚ) := by exact_mod_cast q.den_pos
  have hnc : ((q.num.toNat : ℕ) : ℚ) = (q.num : ℚ) := by
    exact_mod_cast Int.toNat_of_nonneg (le_of_lt hnum)
  have hna : q.num.toNat ≠ 0 := by omega
  have hA1 : (2 : ℚ) ^ ((lg2 q.num.toNat : ℕ) : ℤ) ≤ ((q.num.toNat : ℕ) : ℚ) := by
    rw [← two_zpow_natCast]
    exact_mod_cast (lg2_spec hna).1
  have hA2 : ((q.num.toNat : ℕ) : ℚ) < (2 : ℚ) ^ (((lg2 q.num.toNat : ℕ) : ℤ) + 1) := by
    have h := (lg2_spec hna).2
    have hcast := two_zpow_natCast (lg2 q.num.toNat + 1)
    rw [show (((lg2 q.num.toNat + 1 : ℕ)) : ℤ)
        = ((lg2 q.num.toNat : ℕ) : ℤ) + 1 by push_cast; ring] at hcast
    rw [← hcast]
    exact_mod_cast h
  have hB1 : (2 : ℚ) ^ ((lg2 q.den : ℕ) : ℤ) ≤ ((q.den : ℕ) : ℚ) := by
    rw [← two_zpow_natCast]
    exact_mod_cast (lg2_spec q.den_pos.ne').1
  have hB2 : ((q.den : ℕ) : ℚ) < (2 : ℚ) ^ (((lg2 q.den : ℕ) : ℤ) + 1) := by
    have h := (lg2_spec q.den_pos.ne').2
    have hcast := two_zpow_natCast (lg2 q.den + 1)
    rw [show (((lg2 q.den + 1 : ℕ)) : ℤ)
        = ((lg2 q.den : ℕ) : ℤ) + 1 by push_cast; ring] at hcast
    rw [← hcast]
    exact_mod_cast h
  have key1 : (2 : ℚ) ^ (((lg2 q.num.toNat : ℕ) : ℤ) - ((lg2 q.den : ℕ) : ℤ) - 1) < q := by
    have hmul : (2 : ℚ) ^ (((lg2 q.num.toNat : ℕ) : ℤ) - ((lg2 q.den : ℕ) : ℤ) - 1)
        * ((q.den : ℕ) : ℚ) < ((q.num.toNat : ℕ) : ℚ) := by
      calc (2 : ℚ) ^ (((lg2 q.num.toNat : ℕ) : ℤ) - ((lg2 q.den : ℕ) : ℤ) - 1)
          * ((q.den : ℕ) : ℚ)
          < (2 : ℚ) ^ (((lg2 q.num.toNat : ℕ) : ℤ) - ((lg2 q.den : ℕ) : ℤ) - 1)
            * (2 : ℚ) ^ (((lg2 q.den : ℕ) : ℤ) + 1) :=
            mul_lt_mul_of_pos_left hB2 (two_zpow_pos _)
        _ = (2 : ℚ) ^ ((lg2 q.num.toNat : ℕ) : ℤ) := by
            rw [two_zpow_mul]
            congr 1
            ring
        _ ≤ ((q.num.toNat : ℕ) : ℚ) := hA1
    have h := (lt_div_iff hbq).mpr hmul
    rwa [hnc, Rat.num_div_den] at h
  have key2 : q < (2 : ℚ) ^ (((lg2 q.num.toNat : ℕ) : ℤ) - ((lg2 q.den : ℕ) : ℤ) - 1 + 2) := by
    have hmul : ((q.num.toNat : ℕ) : ℚ)
        < (2 : ℚ) ^ (((lg2 q.num.toNat : ℕ) : ℤ) - ((lg2 q.den : ℕ) : ℤ) - 1 + 2)
          * ((q.den : ℕ) : ℚ) := by
      calc ((q.num.toNat : ℕ) : ℚ)
          < (2 : ℚ) ^ (((lg2 q.num.toNat : ℕ) : ℤ) + 1) := hA2
        _ = (2 : ℚ) ^ (((lg2 q.num.toNat : ℕ) : ℤ) - ((lg2 q.den : ℕ) : ℤ) - 1 + 2)
            * (2 : ℚ) ^ ((lg2 q.den : ℕ) : ℤ) := by
            rw [two_zpow_mul]
            congr 1
            ring
        _ ≤ (2 : ℚ) ^ (((lg2 q.num.toNat : ℕ) : ℤ) - ((lg2 q.den : ℕ) : ℤ) - 1 + 2)
            * ((q.den : ℕ) : ℚ) :=
            mul_le_mul_of_nonneg_left hB1 (le_of_lt (two_zpow_pos _))
    have h := (div_lt_iff hbq).mpr hmul
    rwa [hnc, Rat.num_div_den] at h
  simp only [ilog2q]
  split_ifs with hif
  · refine ⟨hif, ?_⟩
    rw [show ((lg2 q.num.toNat : ℕ) : ℤ) - ((lg2 q.den : ℕ) : ℤ) - 1 + 1 + 1
        = ((lg2 q.num.toNat : ℕ) : ℤ) - ((lg2 q.den : ℕ) : ℤ) - 1 + 2 by ring]
    exact key2
  · exact ⟨le_of_lt key1, not_le.mp hif⟩

lemma two_zpow_le_roundPos {q : ℚ} (hq : 0 < q) :
    (2 : ℚ) ^ ilog2q q ≤ roundPos q := by
  obtain ⟨h1, h2⟩ := ilog2q_spec hq
  unfold roundPos
  have hm : ((2 ^ 52 : ℤ) : ℚ) ≤ q * (2 : ℚ) ^ ((52 : ℤ) - ilog2q q) := by
    have step : (2 : ℚ) ^ ilog2q q * (2 : ℚ) ^ ((52 : ℤ) - ilog2q q)
        ≤ q * (2 : ℚ) ^ ((52 : ℤ) - ilog2q q) :=
      mul_le_mul_of_nonneg_right h1 (le_of_lt (two_zpow_pos _))
    rw [two_zpow_mul, show ilog2q q + ((52 : ℤ) - ilog2q q) = (52 : ℤ) by ring] at step
    have hc : ((2 ^ 52 : ℤ) : ℚ) = (2 : ℚ) ^ (52 : ℤ) := by
      push_cast
      rw [zpow_ofNat]
      norm_num
    rw [hc]
    exact step
  have hr : (2 ^ 52 : ℤ) ≤ rne (q * (2 : ℚ) ^ ((52 : ℤ) - ilog2q q)) := int_le_rne_of_le hm
  have hmul := mul_le_mul_of_nonneg_right
    (show ((2 ^ 52 : ℤ) : ℚ) ≤ ((rne (q * (2 : ℚ) ^ ((52 : ℤ) - ilog2q q)) : ℤ) : ℚ) from by
      exact_mod_cast hr)
    (le_of_lt (two_zpow_pos (ilog2q q - 52)))
  have hc2 : ((2 ^ 52 : ℤ) : ℚ) * (2 : ℚ) ^ (ilog2q q - (52 : ℤ)) = (2 : ℚ) ^ ilog2q q := by
    have hcc : ((2 ^ 52 : ℤ) : ℚ) = (2 : ℚ) ^ (52 : ℤ) := by
      push_cast
      rw [zpow_ofNat]
      norm_num
    rw [hcc, two_zpow_mul]
    congr 1
    ring
  rw [hc2] at hmul
  exact hmul

lemma roundPos_le_two_zpow {q : ℚ} (hq : 0 < q) :
    roundPos q ≤ (2 : ℚ) ^ (ilog2q q + 1) := by
  obtain ⟨h1, h2⟩ := ilog2q_spec hq
  unfold roundPos
  have hm : q * (2 : ℚ) ^ ((52 : ℤ) - ilog2q q) < ((2 ^ 53 : ℤ) : ℚ) := by
    have step : q * (2 : ℚ) ^ ((52 : ℤ) - ilog2q q)
        < (2 : ℚ) ^ (ilog2q q + 1) * (2 : ℚ) ^ ((52 : ℤ) - ilog2q q) :=
      mul_lt_mul_of_pos_right h2 (two_zpow_pos _)
    rw [two_zpow_mul, show ilog2q q + 1 + ((52 : ℤ) - ilog2q q) = (53 : ℤ) by ring] at step
    have hc : ((2 ^ 53 : ℤ) : ℚ) = (2 : ℚ) ^ (53 : ℤ) := by
      push_cast
      rw [zpow_ofNat]
      norm_num
    rw [hc]
    exact step
  have hr : rne (q * (2 : ℚ) ^ ((52 : ℤ) - ilog2q q)) ≤ (2 ^ 53 : ℤ) := rne_le_int_of_lt hm
  have hmul := mul_le_mul_of_nonneg_right
    (show ((rne (q * (2 : ℚ) ^ ((52 : ℤ) - ilog2q q)) : ℤ) : ℚ) ≤ ((2 ^ 53 : ℤ) : ℚ) from by
      exact_mod_cast hr)
    (le_of_lt (two_zpow_pos (ilog2q q - 52)))
  have hc2 : ((2 ^ 53 : ℤ) : ℚ) * (2 : ℚ) ^ (ilog2q q - (52 : ℤ)) = (2 : ℚ) ^ (ilog2q q + 1) := by
    have hcc : ((2 ^ 53 : ℤ) : ℚ) = (2 : ℚ) ^ (53 : ℤ) := by
      push_cast
      rw [zpow_ofNat]
      norm_num
    rw [hcc, two_zpow_mul]
    congr 1
    ring
  rw [hc2] at hmul
  exact hmul

lemma roundPos_mono {x y : ℚ} (hx : 0 < x) (hxy : x ≤ y) :
    roundPos x ≤ roundPos y := by
  have hy : 0 < y := lt_of_lt_of_le hx hxy
  obtain ⟨hx1, hx2⟩ := ilog2q_spec hx
  obtain ⟨hy1, hy2⟩ := ilog2q_spec hy
  have hee : ilog2q x ≤ ilog2q y := by
    by_contra hlt
    push_neg at hlt
    have hzz : (2 : ℚ) ^ (ilog2q y + 1) ≤ (2 : ℚ) ^ ilog2q x :=
      zpow_le_zpow_right₀ one_le_two (by omega)
    linarith
  rcases eq_or_lt_of_le hee with he | he
  · unfold roundPos
    rw [← he]
    exact mul_le_mul_of_nonneg_right
      (by
        exact_mod_cast rne_mono
          (mul_le_mul_of_nonneg_right hxy (le_of_lt (two_zpow_pos ((52 : ℤ) - ilog2q x)))))
      (le_of_lt (two_zpow_pos _))
  · calc roundPos x ≤ (2 : ℚ) ^ (ilog2q x + 1) := roundPos_le_two_zpow hx
      _ ≤ (2 : ℚ) ^ ilog2q y := zpow_le_zpow_right₀ one_le_two (by omega)
      _ ≤ roundPos y := two_zpow_le_roundPos hy

lemma roundDouble_zero : roundDouble 0 = 0 := by
  unfold roundDouble
  simp

lemma roundDouble_nonneg {q : ℚ} (h : 0 ≤ q) : 0 ≤ roundDouble q := by
  rcases eq_or_lt_of_le h with h0 | h0
  · rw [← h0, roundDouble_zero]
  · unfold roundDouble
    rw [if_neg (ne_of_gt h0), if_neg (not_lt.mpr (le_of_lt h0))]
    have ha := two_zpow_le_roundPos h0
    have hb := two_zpow_pos (ilog2q q)
    linarith

lemma roundDouble_mono {x y : ℚ} (hx : 0 ≤ x) (hxy : x ≤ y) :
    roundDouble x ≤ roundDouble y := by
  rcases eq_or_lt_of_le hx with h0 | h0
  · rw [← h0, roundDouble_zero]
    exact roundDouble_nonneg (le_trans hx hxy)
  · have hy : 0 < y := lt_of_lt_of_le h0 hxy
    unfold roundDouble
    rw [if_neg (ne_of_gt h0), if_neg (not_lt.mpr (le_of_lt h0)),
      if_neg (ne_of_gt hy), if_neg (not_lt.mpr (le_of_lt hy))]
    exact roundPos_mono h0 hxy

lemma roundDouble_natCast {n : ℕ} (hn : n < 2 ^ 53) : roundDouble (n : ℚ) = n := by
  rcases Nat.eq_zero_or_pos n with rfl | hpos
  · rw [show ((0 : ℕ) : ℚ) = 0 by norm_num, roundDouble_zero]
  · have hq : (0 : ℚ) < (n : ℚ) := by exact_mod_cast hpos
    obtain ⟨h1, h2⟩ := ilog2q_spec hq
    unfold roundDouble
    rw [if_neg (ne_of_gt hq), if_neg (not_lt.mpr (le_of_lt hq))]
    unfold roundPos
    have he0 : 0 ≤ ilog2q (n : ℚ) := by
      by_contra hneg
      push_neg at hneg
      have hle : (2 : ℚ) ^ (ilog2q (n : ℚ) + 1) ≤ (2 : ℚ) ^ (0 : ℤ) :=
        zpow_le_zpow_right₀ one_le_two (by omega)
      have h1n : (1 : ℚ) ≤ (n : ℚ) := by exact_mod_cast hpos
      rw [zpow_zero] at hle
      linarith
    have he52 : ilog2q (n : ℚ) ≤ 52 := by
      by_contra hgt
      push_neg at hgt
      have hle : (2 : ℚ) ^ (53 : ℤ) ≤ (2 : ℚ) ^ ilog2q (n : ℚ) :=
        zpow_le_zpow_right₀ one_le_two (by omega)
      have hnq : (n : ℚ) < (2 : ℚ) ^ (53 : ℤ) := by
        rw [zpow_ofNat]
        exact_mod_cast hn
      linarith
    have hsplit : (n : ℚ) * (2 : ℚ) ^ ((52 : ℤ) - ilog2q (n : ℚ))
        = ((n * 2 ^ ((52 - ilog2q (n : ℚ)).toNat) : ℕ) : ℚ) := by
      rw [show ((52 : ℤ) - ilog2q (n : ℚ)) = (((52 - ilog2q (n : ℚ)).toNat : ℕ) : ℤ) by omega,
        zpow_natCast]
      push_cast [Int.toNat_natCast]
      ring
    rw [hsplit,
      show ((n * 2 ^ ((52 - ilog2q (n : ℚ)).toNat) : ℕ) : ℚ)
        = (((n * 2 ^ ((52 - ilog2q (n : ℚ)).toNat) : ℕ) : ℤ) : ℚ) by push_cast; ring,
      rne_intCast]
    push_cast
    rw [mul_assoc, ← zpow_natCast (2 : ℚ) ((52 - ilog2q (n : ℚ)).toNat),
      show (((52 - ilog2q (n : ℚ)).toNat : ℕ) : ℤ) = (52 : ℤ) - ilog2q (n : ℚ) by omega,
      two_zpow_mul, show (52 : ℤ) - ilog2q (n : ℚ) + (ilog2q (n : ℚ) - 52) = 0 by ring,
      zpow_zero, mul_one]

lemma compat_float_bounds {S G n : ℕ} (hS : S ≤ 48 * n) (hG : G ≤ 48)
    (hn : 2 ≤ n) (hn53 : n < 2 ^ 53) :
    0 ≤ jsRound (fadd (fmul (fdiv (fdiv (S : ℚ) 48) (n : ℚ)) 60)
          (fmul (fdiv (G : ℚ) 48) 40)) ∧
    jsRound (fadd (fmul (fdiv (fdiv (S : ℚ) 48) (n : ℚ)) 60)
        (fmul (fdiv (G : ℚ) 48) 40)) ≤ 100 := by
  have hn0 : (0 : ℚ) < (n : ℚ) := by exact_mod_cast (by omega : 0 < n)
  have ha1_0 : 0 ≤ fdiv (S : ℚ) 48 := roundDouble_nonneg (by positivity)
  have ha1 : fdiv (S : ℚ) 48 ≤ (n : ℚ) := by
    have h48 : (S : ℚ) / 48 ≤ (n : ℚ) := by
      rw [div_le_iff (by norm_num : (0 : ℚ) < 48)]
      have hc : (S : ℚ) ≤ ((48 * n : ℕ) : ℚ) := by exact_mod_cast hS
      push_cast at hc
      linarith
    calc fdiv (S : ℚ) 48 ≤ roundDouble (n : ℚ) := roundDouble_mono (by positivity) h48
      _ = (n : ℚ) := roundDouble_natCast hn53
  have ha2_0 : 0 ≤ fdiv (fdiv (S : ℚ) 48) (n : ℚ) :=
    roundDouble_nonneg (div_nonneg ha1_0 (le_of_lt hn0))
  have ha2 : fdiv (fdiv (S : ℚ) 48) (n : ℚ) ≤ 1 := by
    have hq : fdiv (S : ℚ) 48 / (n : ℚ) ≤ 1 := by
      rw [div_le_one hn0]
      exact ha1
    calc fdiv (fdiv (S : ℚ) 48) (n : ℚ)
        ≤ roundDouble 1 := roundDouble_mono (div_nonneg ha1_0 (le_of_lt hn0)) hq
      _ = 1 := by with_unfolding_all decide
  have ha3_0 : 0 ≤ fmul (fdiv (fdiv (S : ℚ) 48) (n : ℚ)) 60 :=
    roundDouble_nonneg (mul_nonneg ha2_0 (by norm_num))
  have ha3 : fmul (fdiv (fdiv (S : ℚ) 48) (n : ℚ)) 60 ≤ 60 := by
    have hq : fdiv (fdiv (S : ℚ) 48) (n : ℚ) * 60 ≤ 60 := by linarith
    calc fmul (fdiv (fdiv (S : ℚ) 48) (n : ℚ)) 60
        ≤ roundDouble 60 := roundDouble_mono (mul_nonneg ha2_0 (by norm_num)) hq
      _ = 60 := by with_unfolding_all decide
  have hb1_0 : 0 ≤ fdiv (G : ℚ) 48 := roundDouble_nonneg (by positivity)
  have hb1 : fdiv (G : ℚ) 48 ≤ 1 := by
    have hq : (G : ℚ) / 48 ≤ 1 := by
      rw [div_le_one (by norm_num : (0 : ℚ) < 48)]
      exact_mod_cast hG
    calc fdiv (G : ℚ) 48 ≤ roundDouble 1 := roundDouble_mono (by positivity) hq
      _ = 1 := by with_unfolding_all decide
  have hb2_0 : 0 ≤ fmul (fdiv (G : ℚ) 48) 40 :=
    roundDouble_nonneg (mul_nonneg hb1_0 (by norm_num))
  have hb2 : fmul (fdiv (G : ℚ) 48) 40 ≤ 40 := by
    have hq : fdiv (G : ℚ) 48 * 40 ≤ 40 := by linarith
    calc fmul (fdiv (G : ℚ) 48) 40
        ≤ roundDouble 40 := roundDouble_mono (mul_nonneg hb1_0 (by norm_num)) hq
      _ = 40 := by with_unfolding_all decide
  have hs0 : 0 ≤ fadd (fmul (fdiv (fdiv (S : ℚ) 48) (n : ℚ)) 60)
      (fmul (fdiv (G : ℚ) 48) 40) :=
    roundDouble_nonneg (add_nonneg ha3_0 hb2_0)
  have hs100 : fadd (fmul (fdiv (fdiv (S : ℚ) 48) (n : ℚ)) 60)
      (fmul (fdiv (G : ℚ) 48) 40) ≤ 100 := by
    have hq : fmul (fdiv (fdiv (S : ℚ) 48) (n : ℚ)) 60 + fmul (fdiv (G : ℚ) 48) 40 ≤ 100 := by
      linarith
    calc fadd (fmul (fdiv (fdiv (S : ℚ) 48) (n : ℚ)) 60) (fmul (fdiv (G : ℚ) 48) 40)
        ≤ roundDouble 100 := roundDouble_mono (add_nonneg ha3_0 hb2_0) hq
      _ = 100 := by with_unfolding_all decide
  exact jsRound_bounds hs0 hs100

/-- C8 (amended): `calculateTimezoneCompatibility` returns 0 with fewer
than 2 participants; with `n ≥ 2` it returns the rounding of the BINARY64
evaluation of `(sum of the 48 slot counts / 48 / n) * 60 +
(goldenSlots / 48) * 40`, where `goldenSlots` counts slots with
`count ≥ ceil(n * 0.8)`, also evaluated in binary64.  The double rounding
can differ from the exact-arithmetic rounding the claim states (7 instead
of 8 at n = 3, sum = 16, goldenSlots = 1); the result is still always an
integer in [0, 100]. -/
theorem calculateTimezoneCompatibility_spec (env : Env) (excl : Bool)
    (ps : List Participant) (st : SchedState)
    (hst : GoodCache env excl ps st) (hn53 : ps.length < 2 ^ 53) :
    (ps.length < 2 → calculateTimezoneCompatibility env excl ps st = 0) ∧
    (2 ≤ ps.length →
      calculateTimezoneCompatibility env excl ps st =
        jsRound (fadd
          (fmul (fdiv (fdiv (((((buildSlots env excl (env.dayAt 0) ps).map (·.count)).sum : ℕ)) : ℚ) 48)
            (ps.length : ℚ)) 60)
          (fmul (fdiv ((((buildSlots env excl (env.dayAt 0) ps).filter fun s =>
              decide (⌈fmul (ps.length : ℚ) d08⌉ ≤ (s.count : ℤ))).length : ℕ) : ℚ) 48) 40))) ∧
    0 ≤ calculateTimezoneCompatibility env excl ps st ∧
    calculateTimezoneCompatibility env excl ps st ≤ 100 := by
  by_cases h2 : ps.length < 2
  · have h0 : calculateTimezoneCompatibility env excl ps st = 0 := by
      unfold calculateTimezoneCompatibility
      rw [if_pos h2]
    exact ⟨fun _ => h0, fun hc => absurd hc (by omega), by rw [h0], by rw [h0]; norm_num⟩
  · push_neg at h2
    have hgrid := (calcSlot_good env excl ps st (env.dayAt 0) hst).1
    have hlen := buildSlots_length env excl (env.dayAt 0) ps
    have heq : calculateTimezoneCompatibility env excl ps st =
        jsRound (fadd
          (fmul (fdiv (fdiv (((((buildSlots env excl (env.dayAt 0) ps).map (·.count)).sum : ℕ)) : ℚ) 48)
            (ps.length : ℚ)) 60)
          (fmul (fdiv ((((buildSlots env excl (env.dayAt 0) ps).filter fun s =>
              decide (⌈fmul (ps.length : ℚ) d08⌉ ≤ (s.count : ℤ))).length : ℕ) : ℚ) 48) 40)) := by
      unfold calculateTimezoneCompatibility
      rw [if_neg (by omega)]
      simp only [hgrid, hlen]
      norm_num
    have hSb : ((buildSlots env excl (env.dayAt 0) ps).map (·.count)).sum
        ≤ 48 * ps.length := by
      have hbound : ∀ c ∈ (buildSlots env excl (env.dayAt 0) ps).map (·.count),
          c ≤ ps.length := by
        intro c hc
        obtain ⟨sl, hsl, rfl⟩ := List.mem_map.mp hc
        exact (buildSlots_inv env excl (env.dayAt 0) ps sl hsl).2.2
      have h := List.sum_le_card_nsmul _ _ hbound
      rwa [List.length_map, hlen, smul_eq_mul] at h
    have hGb : ((buildSlots env excl (env.dayAt 0) ps).filter fun s =>
        decide (⌈fmul (ps.length : ℚ) d08⌉ ≤ (s.count : ℤ))).length ≤ 48 := by
      rw [← hlen]
      exact List.length_filter_le _ _
    obtain ⟨hjl, hju⟩ := compat_float_bounds hSb hGb h2 hn53
    exact ⟨fun hc => absurd hc (by omega), fun _ => heq, by rw [heq]; exact hjl,
      by rw [heq]; exact hju⟩

/-- Witness for C8 (amended) with Alice and Bob in the concrete UTC
environment. -/
theorem calculateTimezoneCompatibility_spec_witness :
    ([pAlice, pBob].length < 2 →
      calculateTimezoneCompatibility utcEnv false [pAlice, pBob] ⟨[]⟩ = 0) ∧
    (2 ≤ [pAlice, pBob].length →
      calculateTimezoneCompatibility utcEnv false [pAlice, pBob] ⟨[]⟩ =
        jsRound (fadd
          (fmul (fdiv (fdiv (((((buildSlots utcEnv false (utcEnv.dayAt 0) [pAlice, pBob]).map (·.count)).sum : ℕ)) : ℚ) 48)
            (([pAlice, pBob].length : ℕ) : ℚ)) 60)
          (fmul (fdiv ((((buildSlots utcEnv false (utcEnv.dayAt 0) [pAlice, pBob]).filter fun s =>
              decide (⌈fmul (([pAlice, pBob].length : ℕ) : ℚ) d08⌉ ≤ (s.count : ℤ))).length : ℕ) : ℚ) 48) 40))) ∧
    0 ≤ calculateTimezoneCompatibility utcEnv false [pAlice, pBob] ⟨[]⟩ ∧
    calculateTimezoneCompatibility utcEnv false [pAlice, pBob] ⟨[]⟩ ≤ 100 :=
  calculateTimezoneCompatibility_spec utcEnv false [pAlice, pBob] ⟨[]⟩
    (goodCache_nil utcEnv false [pAlice, pBob]) (by norm_num)

/-- C8 counterexample: with three UTC participants whose grid for today
has slot-count sum 16 and one golden slot, the program's double-precision
chain evaluates to just below 7.5 and `Math.round` returns 7, while the
exact-arithmetic formula the claim states rounds 7.5 up to 8. -/
theorem calculateTimezoneCompatibility_counterexample :
    calculateTimezoneCompatibility utcEnv false [pDawn, pLate, pMid] ⟨[]⟩ = 7 ∧
    jsRound
      (((((buildSlots utcEnv false (utcEnv.dayAt 0) [pDawn, pLate, pMid]).map (·.count)).sum : ℕ) : ℚ) / 48 /
          (([pDawn, pLate, pMid].length : ℕ) : ℚ) * 60 +
        (((buildSlots utcEnv false (utcEnv.dayAt 0) [pDawn, pLate, pMid]).filter fun s =>
              decide (⌈(([pDawn, pLate, pMid].length : ℕ) : ℚ) * 0.8⌉₊ ≤ s.count)).length : ℚ) / 48 * 40) = 8 := by
  refine ⟨by with_unfolding_all decide, by with_unfolding_all decide⟩

lemma jsRound_half (k : Nat) :
    ((jsRound (((k : ℚ) * 0.5) * 10) : ℚ)) / 10 = (k : ℚ) / 2 := by
  unfold jsRound
  have h1 : ((k : ℚ) * 0.5) * 10 + 1 / 2 = 5 * k + 1 / 2 := by ring
  rw [h1]
  have h2 : ⌊5 * (k : ℚ) + 1 / 2⌋ = (5 * k : Int) := by
    rw [Int.floor_eq_iff]
    constructor
    · push_cast
      linarith
    · push_cast
      linarith
  rw [h2]
  push_cast
  ring

lemma calculatePairOverlap_eq (env : Env) (p1 p2 : Participant) :
    calculatePairOverlap env p1 p2 =
      (((List.range 48).filter fun i => bothAvailableAt env p1 p2 (env.dayAt 0) i).length : ℚ) / 2 := by
  unfold calculatePairOverlap
  exact jsRound_half _

lemma mem_insAsc (x a : PairResult) (l : List PairResult) :
    x ∈ insAsc a l ↔ x = a ∨ x ∈ l := by
  induction l with
  | nil => simp [insAsc]
  | cons b bs ih =>
    unfold insAsc
    split
    · simp [List.mem_cons]
    · simp only [List.mem_cons, ih]
      tauto

lemma insAsc_pairwise (a : PairResult) (l : List PairResult)
    (h : l.Pairwise fun x y => x.overlap ≤ y.overlap) :
    (insAsc a l).Pairwise fun x y => x.overlap ≤ y.overlap := by
  induction l with
  | nil => simp [insAsc]
  | cons b bs ih =>
    rw [List.pairwise_cons] at h
    unfold insAsc
    split
    · rename_i hab
      rw [List.pairwise_cons]
      constructor
      · intro y hy
        rcases List.mem_cons.mp hy with rfl | hy
        · exact le_of_lt hab
        · exact le_trans (le_of_lt hab) (h.1 y hy)
      · exact List.pairwise_cons.mpr h
    · rename_i hab
      rw [List.pairwise_cons]
      constructor
      · intro y hy
        rcases (mem_insAsc y a bs).mp hy with rfl | hy
        · exact le_of_not_lt hab
        · exact h.1 y hy
      · exact ih h.2

lemma sortByOverlapAsc_pairwise (l : List PairResult) :
    (sortByOverlapAsc l).Pairwise fun x y => x.overlap ≤ y.overlap := by
  unfold sortByOverlapAsc
  suffices h : ∀ (l acc : List PairResult),
      (acc.Pairwise fun x y => x.overlap ≤ y.overlap) →
      ((l.foldl (fun acc a => insAsc a acc) acc).Pairwise fun x y => x.overlap ≤ y.overlap) from
    h l [] List.Pairwise.nil
  intro l
  induction l with
  | nil => intro acc h; exact h
  | cons b bs ih =>
    intro acc h
    simp only [List.foldl_cons]
    exact ih _ (insAsc_pairwise b acc h)

lemma mem_sortByOverlapAsc (x : PairResult) (l : List PairResult) :
    x ∈ sortByOverlapAsc l ↔ x ∈ l := by
  unfold sortByOverlapAsc
  suffices h : ∀ (l acc : List PairResult),
      x ∈ l.foldl (fun acc a => insAsc a acc) acc ↔ x ∈ acc ∨ x ∈ l by
    simpa using h l []
  intro l
  induction l with
  | nil => simp
  | cons b bs ih =>
    intro acc
    simp only [List.foldl_cons, ih, mem_insAsc, List.mem_cons]
    tauto

/-- C9: `findWorstTimezonePairs` returns at most 3 pairs, sorted ascending
by overlap; each reported pair is an unordered participant pair (`i < j` in
list order) whose overlap is strictly below 3 hours, and that overlap is
exactly half the number of the 48 half-hour slots of today in which both
participants are inside their own windows (wraparound honoured, the
lunch-exclusion setting not applied — `bothAvailableAt` has no lunch check;
the `× 0.5`-then-round-to-one-decimal of the source is exact). -/
theorem findWorstTimezonePairs_spec (env : Env) (ps : List Participant) :
    (findWorstTimezonePairs env ps).length ≤ 3 ∧
    ((findWorstTimezonePairs env ps).Pairwise fun x y => x.overlap ≤ y.overlap) ∧
    ∀ e ∈ findWorstTimezonePairs env ps,
      e.overlap < 3 ∧
      ∃ p1 p2, (p1, p2) ∈ pairsOf ps ∧ e.p1 = p1.name ∧ e.p2 = p2.name ∧
        e.overlap =
          (((List.range 48).filter fun i =>
              bothAvailableAt env p1 p2 (env.dayAt 0) i).length : ℚ) / 2 := by
  unfold findWorstTimezonePairs
  split
  · exact ⟨by simp, List.Pairwise.nil, by simp⟩
  · simp only
    refine ⟨?_, ?_, ?_⟩
    · exact le_trans (List.length_take_le 3 _) (le_refl 3)
    · exact (sortByOverlapAsc_pairwise _).sublist (List.take_sublist 3 _)
    · intro e he
      have hmem := List.mem_of_mem_take he
      rw [mem_sortByOverlapAsc] at hmem
      rw [List.mem_filterMap] at hmem
      obtain ⟨pr, hpr, hif⟩ := hmem
      split at hif
      · rename_i hlt
        have he2 : e = ⟨pr.1.name, pr.2.name, calculatePairOverlap env pr.1 pr.2⟩ :=
          (Option.some_inj.mp hif).symm
        refine ⟨?_, pr.1, pr.2, ?_, ?_, ?_, ?_⟩
        · rw [he2]
          exact hlt
        · simpa using hpr
        · rw [he2]
        · rw [he2]
        · rw [he2]
          exact calculatePairOverlap_eq env pr.1 pr.2
      · exact absurd hif (by simp)

end TimeSync

